import Mathlib

/-!
# amqp2gelf: record builder and delivery loop

A shallow embedding of `main.go` (amqp2gelf 0.3): the functions
`buildGelfMessage_json`, `buildGelfMessage_text`, `buildGelfMessage` and
`writeLogsToGelf`, together with the part of `main` that forwards the value
received on `done` to the `shutdown` channel.

Conventions of the embedding.

* A Go `string` / `[]byte` is a Lean `String`; `string(message)` is the
  identity. The braces are ASCII, so testing the first and the last byte of a
  UTF-8 text is testing its first and its last character.
* `float64` values are carried as their IEEE-754 bit pattern (`Float64`); the
  program never computes with them.
* A run-time panic is the outcome `Outcome.fault`; a returned non-nil `err` is
  the outcome `Outcome.error`.
* `encoding/json` and `strconv` are library code. The program is parameterised
  by a `Lib` that supplies `json.Unmarshal` (into an `interface{}`) and
  `strconv.ParseFloat`; `goLib` is a reference decoder used to run the program
  on concrete payloads.
* The order in which `range` produces the keys of a map is chosen by the Go
  run time; it is the parameter `RangeOrder`.
-/

set_option autoImplicit false

namespace Amqp2Gelf

/-! ## Values -/

/-- A `float64`, as its 64-bit IEEE-754 pattern. -/
structure Float64 where
  bits : Nat
deriving DecidableEq, Repr

/-- The constant `0.0`. -/
def Float64.zero : Float64 := ⟨0⟩

/-- The values `json.Unmarshal` stores into an `interface{}`: `nil` for JSON
null, `bool`, `float64` for every JSON number, `string`, `[]interface{}` and
`map[string]interface{}`. No other dynamic type occurs. -/
inductive JVal where
  | null
  | bool (b : Bool)
  | num (f : Float64)
  | str (s : String)
  | arr (xs : List JVal)
  | obj (kvs : List (String × JVal))
deriving Repr

mutual
/-- Decidable equality of decoded values. -/
def JVal.decEq : (a b : JVal) → Decidable (a = b)
  | .null, .null => isTrue rfl
  | .bool x, .bool y =>
    if h : x = y then isTrue (by rw [h]) else isFalse (by intro e; cases e; exact h rfl)
  | .num x, .num y =>
    if h : x = y then isTrue (by rw [h]) else isFalse (by intro e; cases e; exact h rfl)
  | .str x, .str y =>
    if h : x = y then isTrue (by rw [h]) else isFalse (by intro e; cases e; exact h rfl)
  | .arr x, .arr y =>
    match JVal.decEqList x y with
    | isTrue h => isTrue (by rw [h])
    | isFalse h => isFalse (by intro e; cases e; exact h rfl)
  | .obj x, .obj y =>
    match JVal.decEqFields x y with
    | isTrue h => isTrue (by rw [h])
    | isFalse h => isFalse (by intro e; cases e; exact h rfl)
  | .null, .bool _ => isFalse (by intro e; cases e)
  | .null, .num _ => isFalse (by intro e; cases e)
  | .null, .str _ => isFalse (by intro e; cases e)
  | .null, .arr _ => isFalse (by intro e; cases e)
  | .null, .obj _ => isFalse (by intro e; cases e)
  | .bool _, .null => isFalse (by intro e; cases e)
  | .bool _, .num _ => isFalse (by intro e; cases e)
  | .bool _, .str _ => isFalse (by intro e; cases e)
  | .bool _, .arr _ => isFalse (by intro e; cases e)
  | .bool _, .obj _ => isFalse (by intro e; cases e)
  | .num _, .null => isFalse (by intro e; cases e)
  | .num _, .bool _ => isFalse (by intro e; cases e)
  | .num _, .str _ => isFalse (by intro e; cases e)
  | .num _, .arr _ => isFalse (by intro e; cases e)
  | .num _, .obj _ => isFalse (by intro e; cases e)
  | .str _, .null => isFalse (by intro e; cases e)
  | .str _, .bool _ => isFalse (by intro e; cases e)
  | .str _, .num _ => isFalse (by intro e; cases e)
  | .str _, .arr _ => isFalse (by intro e; cases e)
  | .str _, .obj _ => isFalse (by intro e; cases e)
  | .arr _, .null => isFalse (by intro e; cases e)
  | .arr _, .bool _ => isFalse (by intro e; cases e)
  | .arr _, .num _ => isFalse (by intro e; cases e)
  | .arr _, .str _ => isFalse (by intro e; cases e)
  | .arr _, .obj _ => isFalse (by intro e; cases e)
  | .obj _, .null => isFalse (by intro e; cases e)
  | .obj _, .bool _ => isFalse (by intro e; cases e)
  | .obj _, .num _ => isFalse (by intro e; cases e)
  | .obj _, .str _ => isFalse (by intro e; cases e)
  | .obj _, .arr _ => isFalse (by intro e; cases e)
/-- Decidable equality of slices of decoded values. -/
def JVal.decEqList : (a b : List JVal) → Decidable (a = b)
  | [], [] => isTrue rfl
  | [], _ :: _ => isFalse (by intro e; cases e)
  | _ :: _, [] => isFalse (by intro e; cases e)
  | x :: xs, y :: ys =>
    match JVal.decEq x y, JVal.decEqList xs ys with
    | isTrue h1, isTrue h2 => isTrue (by rw [h1, h2])
    | isFalse h1, _ => isFalse (by intro e; cases e; exact h1 rfl)
    | _, isFalse h2 => isFalse (by intro e; cases e; exact h2 rfl)
/-- Decidable equality of the entries of decoded objects. -/
def JVal.decEqFields : (a b : List (String × JVal)) → Decidable (a = b)
  | [], [] => isTrue rfl
  | [], _ :: _ => isFalse (by intro e; cases e)
  | _ :: _, [] => isFalse (by intro e; cases e)
  | (k1, x) :: xs, (k2, y) :: ys =>
    if hk : k1 = k2 then
      match JVal.decEq x y, JVal.decEqFields xs ys with
      | isTrue h1, isTrue h2 => isTrue (by rw [hk, h1, h2])
      | isFalse h1, _ => isFalse (by intro e; cases e; exact h1 rfl)
      | _, isFalse h2 => isFalse (by intro e; cases e; exact h2 rfl)
    else isFalse (by intro e; cases e; exact hk rfl)
end

instance : DecidableEq JVal := JVal.decEq

/-- The dynamic type of a decoded value, as the Go run time prints it. -/
def JVal.typeName : JVal → String
  | .null => "nil"
  | .bool _ => "bool"
  | .num _ => "float64"
  | .str _ => "string"
  | .arr _ => "[]interface \x7b\x7d"
  | .obj _ => "map[string]interface \x7b\x7d"

/-- A `map[string]interface{}`: an association list read through `JMap.lookup`
(first entry for a key). -/
abbrev JMap := List (String × JVal)

/-- The two-valued index expression `jm[k]` (`v, ok := jm[k]`). -/
def JMap.lookup (k : String) : JMap → Option JVal
  | [] => none
  | (k', v) :: rest => if k' = k then some v else JMap.lookup k rest

/-- The builtin `delete(jm, k)`. -/
def JMap.erase (k : String) (jm : JMap) : JMap :=
  jm.filter (fun kv => decide (kv.1 ≠ k))

/-- The assignment `jm[k] = v`. -/
def JMap.insert (k : String) (v : JVal) (jm : JMap) : JMap :=
  (k, v) :: JMap.erase k jm

/-- The keys of a map. -/
def JMap.keys (jm : JMap) : List String := jm.map Prod.fst

/-- The builtin `len(jm)`: the number of distinct keys. -/
def JMap.len (jm : JMap) : Nat := (JMap.keys jm).toFinset.card

/-! ## Outcomes -/

/-- Run-time panics the program can raise. -/
inductive Fault where
  /-- Index out of range: `index` for a slice of length `len`. -/
  | indexOutOfRange (index len : Nat)
  /-- Failed type assertion `x.(want)` on a value of dynamic type `dyn`. -/
  | interfaceConversion (dyn want : String)
deriving DecidableEq, Repr

/-- What a call of a Go function `(gm T, err error)` does: return with
`err == nil`, return with `err != nil`, or panic. -/
inductive Outcome (α : Type) where
  | ok (a : α)
  | error (err : String)
  | fault (f : Fault)
deriving DecidableEq, Repr

/-- Sequencing of two steps, the second run only when the first returned. -/
def Outcome.bind {α β : Type} (x : Outcome α) (f : α → Outcome β) : Outcome β :=
  match x with
  | .ok a => f a
  | .error e => .error e
  | .fault p => .fault p

/-- The fields of `gelf.Message` the program sets. -/
structure Message where
  Version : String
  Host : String
  Short : String
  TimeUnix : Float64
  Level : Int
  Extra : JMap
deriving DecidableEq, Repr

/-! ## Library and run time -/

/-- The library functions the program calls. -/
structure Lib where
  /-- The call `json.Unmarshal(message, &emptyinterface)`: the error, or the
  value stored. -/
  unmarshal : String → Except String JVal
  /-- The value returned by `strconv.ParseFloat(s, 64)` (the program discards
  its error). -/
  parseFloat : String → Float64

/-- The order in which one `range` statement over a map produces keys. Every
entry that is in the map when the loop starts and is not deleted before it is
reached is produced; entries created during the loop may be produced too. A
key listed while it is not in the map is skipped by `renameStep`. -/
structure RangeOrder where
  keysOf : JMap → List String
  complete : ∀ (jm : JMap) (k : String), k ∈ JMap.keys jm → k ∈ keysOf jm

/-! ## buildGelfMessage_json -/

/-- The map literal `gelfReservedField` with the lookup `gelfReservedField[k]`
(`false` for a missing key). -/
def gelfReservedField (k : String) : Bool :=
  decide (k ∈ ["_id", "_ttl", "_source", "_all", "_index", "_type", "_score"])

/-- One iteration of `for k, v := range jm` (lines 154-162). -/
def renameStep (jm : JMap) (k : String) : JMap :=
  match JMap.lookup k jm with
  | none => jm
  | some v =>
    if gelfReservedField k then
      JMap.erase k (JMap.insert ("renamed" ++ k) v jm)
    else if gelfReservedField ("_" ++ k) then
      JMap.erase k (JMap.insert ("renamed_" ++ k) v jm)
    else jm

/-- The whole renaming loop, for the keys produced in the given order. -/
def renameReserved (order : List String) (jm : JMap) : JMap :=
  order.foldl renameStep jm

/-- The type assertion `x.(string)`. -/
def assertString (x : JVal) : Outcome String :=
  match x with
  | .str s => .ok s
  | v => .fault (.interfaceConversion (JVal.typeName v) "string")

/-- The type assertion `x.(int32)`. No value decoded from JSON has dynamic
type `int32` (numbers are `float64`). -/
def assertInt32 (x : JVal) : Outcome Int :=
  match x with
  | .null => .fault (.interfaceConversion "nil" "int32")
  | .bool _ => .fault (.interfaceConversion "bool" "int32")
  | .num _ => .fault (.interfaceConversion "float64" "int32")
  | .str _ => .fault (.interfaceConversion "string" "int32")
  | .arr _ => .fault (.interfaceConversion "[]interface \x7b\x7d" "int32")
  | .obj _ => .fault (.interfaceConversion "map[string]interface \x7b\x7d" "int32")

/-- The type assertion `emptyinterface.(map[string]interface{})`. -/
def assertMap (x : JVal) : Outcome JMap :=
  match x with
  | .obj kvs => .ok kvs
  | v => .fault (.interfaceConversion (JVal.typeName v) "map[string]interface \x7b\x7d")

/-- Lines 165-168, 170-173, 190-193: a string field with a default. -/
def stringField (jm : JMap) (key dflt : String) : Outcome String :=
  match JMap.lookup key jm with
  | none => .ok dflt
  | some v => assertString v

/-- Lines 175-183: the type switch on `jm["timestamp"]`. -/
def timestampField (lib : Lib) (jm : JMap) : Float64 :=
  match JMap.lookup "timestamp" jm with
  | some (.num tsval) => tsval
  | some (.str tsval) => lib.parseFloat tsval
  | _ => Float64.zero

/-- Lines 185-188: `level`, default 6. -/
def levelField (jm : JMap) : Outcome Int :=
  match JMap.lookup "level" jm with
  | none => .ok 6
  | some v => assertInt32 v

/-- Lines 164-203, after decoding and renaming. -/
def extractFields (lib : Lib) (jm : JMap) : Outcome Message :=
  (stringField jm "host" "unknown_amqp").bind fun gelf_hostname =>
  (stringField jm "short_message" "").bind fun gelf_shortmsg =>
  let gelf_timestamp := timestampField lib jm
  (levelField jm).bind fun gelf_level =>
  (stringField jm "version" "1.1").bind fun gelf_version =>
  .ok { Version := gelf_version, Host := gelf_hostname, Short := gelf_shortmsg,
        TimeUnix := gelf_timestamp, Level := gelf_level, Extra := jm }

/-- The function `buildGelfMessage_json` (lines 128-205). -/
def buildGelfMessage_json (lib : Lib) (rng : RangeOrder) (message : String) :
    Outcome Message :=
  match lib.unmarshal message with
  | .error err => .error err
  | .ok emptyinterface =>
    (assertMap emptyinterface).bind fun jm0 =>
    extractFields lib (renameReserved (rng.keysOf jm0) jm0)

/-! ## buildGelfMessage_text and buildGelfMessage -/

/-- The function `buildGelfMessage_text` (lines 208-218). -/
def buildGelfMessage_text (message : String) : Outcome Message :=
  .ok { Version := "1.1", Host := "unknown_amqp", Short := message,
        TimeUnix := Float64.zero, Level := 6, Extra := [] }

/-- The index expression `message[i]`. -/
def byteAt (message : String) (i : Nat) : Outcome Char :=
  match message.data[i]? with
  | some c => .ok c
  | none => .fault (.indexOutOfRange i message.data.length)

/-- The function `buildGelfMessage` (lines 220-228); `&&` evaluates its right
operand only when the left one is true. -/
def buildGelfMessage (lib : Lib) (rng : RangeOrder) (message ctype : String) :
    Outcome Message :=
  if ctype = "application/json" ∨ ctype = "text/json" then
    (byteAt message 0).bind fun first =>
    if first = Char.ofNat 123 then
      (byteAt message (message.data.length - 1)).bind fun last =>
      if last = Char.ofNat 125 then buildGelfMessage_json lib rng message
      else buildGelfMessage_text message
    else buildGelfMessage_text message
  else buildGelfMessage_text message

/-! ## writeLogsToGelf and main -/

/-- The fields of an `amqp.Delivery` the loop reads. -/
structure Delivery where
  Body : String
  ContentType : String
deriving DecidableEq, Repr

/-- What the delivery loop does to the outside world, for the delivery with
index `i` (its position in the sequence of deliveries). -/
inductive Event where
  /-- The call `gelfWriter.WriteMessage(&gm)` and the error it returned. -/
  | write (i : Nat) (gm : Message) (err : Option String)
  /-- The call `d.Ack(multiple)`. -/
  | ack (i : Nat) (multiple : Bool)
  /-- The call `d.Reject(requeue)`. -/
  | reject (i : Nat) (requeue : Bool)
  /-- A send `done <- e` that a receiver takes. -/
  | done (e : String)
  /-- A send `done <- e` that no receiver ever takes: the goroutine stays
  blocked in it. -/
  | blocked (e : String)
  /-- An unrecovered panic: the process dies. -/
  | crash (f : Fault)
deriving DecidableEq, Repr

/-- The send `done <- e` on the unbuffered channel, when `receivers` receive
operations are still to come on it (`main` performs one, line 292). -/
def sendDone (receivers : Nat) (e : String) : List Event :=
  if receivers = 0 then [Event.blocked e] else [Event.done e]

/-- The loop `for d := range deliveries` (lines 239-255) followed by the final
send (line 256). `range i` is the key order of the build for delivery `i`,
`sink i gm` the error `WriteMessage` returns for it, if any. The verbose log
lines are left out. -/
def deliveryLoop (lib : Lib) (range : Nat → RangeOrder)
    (sink : Nat → Message → Option String) :
    List Delivery → Nat → Nat → List Event
  | [], _, receivers => sendDone receivers "done"
  | d :: ds, i, receivers =>
    match buildGelfMessage lib (range i) d.Body d.ContentType with
    | .fault f => [Event.crash f]
    | .error _ => Event.reject i false :: deliveryLoop lib range sink ds (i + 1) receivers
    | .ok gm =>
      match sink i gm with
      | some err =>
        if receivers = 0 then
          [Event.write i gm (some err), Event.blocked ("Cannot send gelf msg: " ++ err)]
        else
          Event.write i gm (some err) :: Event.done ("Cannot send gelf msg: " ++ err) ::
            Event.reject i false :: deliveryLoop lib range sink ds (i + 1) (receivers - 1)
      | none =>
        Event.write i gm none :: Event.ack i false ::
          deliveryLoop lib range sink ds (i + 1) receivers

/-- The function `writeLogsToGelf` (lines 231-258); `newWriter` is the error of
`gelf.NewWriter`, if any. -/
def writeLogsToGelf (lib : Lib) (range : Nat → RangeOrder) (newWriter : Option String)
    (sink : Nat → Message → Option String) (deliveries : List Delivery)
    (receivers : Nat) : List Event :=
  match newWriter with
  | some err => sendDone receivers ("Cannot create gelf writer: " ++ err)
  | none => deliveryLoop lib range sink deliveries 0 receivers

/-- Lines 291-294 of `main`: the value received from `c.done` is sent to
`shutdown` as `fmt.Sprintln(err)`. -/
def shutdownReason (err : String) : String := err ++ "\n"

/-! ## Reference library: a JSON decoder

`jsonUnmarshal` follows `encoding/json`: the grammar of RFC 8259, numbers
converted to the nearest `float64`, later duplicates of an object key
replacing earlier ones. `parseFloat64` follows `strconv.ParseFloat` on decimal
literals and on the names of the infinities and NaN. Not covered: the texts
of the decoder's error values (a malformed input gives an error, with a text
of this model), the limit of 10000 on the nesting depth, and the hexadecimal
and digit-separator forms of `strconv.ParseFloat` (read as 0 here). The
theorems about the program hold for every `Lib`; this one serves to run the
program on concrete payloads, none of which is of those kinds. -/

/-- JSON white space: space, tab, line feed, carriage return. -/
def isSpace (c : Char) : Bool :=
  c.toNat = 32 || c.toNat = 9 || c.toNat = 10 || c.toNat = 13

/-- Drop leading white space. -/
def skipSpace : List Char → List Char
  | [] => []
  | c :: cs => if isSpace c then skipSpace cs else c :: cs

/-- Decimal digit value. -/
def digitVal (c : Char) : Option Nat :=
  if 48 ≤ c.toNat ∧ c.toNat ≤ 57 then some (c.toNat - 48) else none

/-- Hexadecimal digit value. -/
def hexVal (c : Char) : Option Nat :=
  if 48 ≤ c.toNat ∧ c.toNat ≤ 57 then some (c.toNat - 48)
  else if 97 ≤ c.toNat ∧ c.toNat ≤ 102 then some (c.toNat - 87)
  else if 65 ≤ c.toNat ∧ c.toNat ≤ 70 then some (c.toNat - 55)
  else none

/-- The four hexadecimal digits of a `\u` escape. -/
def hex4 (a b c d : Char) : Option Nat :=
  match hexVal a, hexVal b, hexVal c, hexVal d with
  | some x, some y, some z, some w => some (((x * 16 + y) * 16 + z) * 16 + w)
  | _, _, _, _ => none

/-- The rune a `\u` escape stands for: U+FFFD for a surrogate half. -/
def runeOfUnit (n : Nat) : Char :=
  if 0xD800 ≤ n ∧ n ≤ 0xDFFF then Char.ofNat 0xFFFD else Char.ofNat n

/-- The body of a string literal after its opening quote: the decoded text
and the input after the closing quote. The fuel bounds the number of steps. -/
def decodeString : Nat → List Char → List Char → Option (String × List Char)
  | 0, _, _ => none
  | _ + 1, _, [] => none
  | fuel + 1, acc, c :: cs =>
    if c.toNat = 34 then some (String.mk acc.reverse, cs)
    else if c.toNat = 92 then
      match cs with
      | [] => none
      | e :: rest =>
        if e.toNat = 34 ∨ e.toNat = 92 ∨ e.toNat = 47 then decodeString fuel (e :: acc) rest
        else if e = 'b' then decodeString fuel (Char.ofNat 8 :: acc) rest
        else if e = 'f' then decodeString fuel (Char.ofNat 12 :: acc) rest
        else if e = 'n' then decodeString fuel (Char.ofNat 10 :: acc) rest
        else if e = 'r' then decodeString fuel (Char.ofNat 13 :: acc) rest
        else if e = 't' then decodeString fuel (Char.ofNat 9 :: acc) rest
        else if e = 'u' then
          match rest with
          | a :: b :: c1 :: d :: rest1 =>
            match hex4 a b c1 d with
            | none => none
            | some hi =>
              if 0xD800 ≤ hi ∧ hi ≤ 0xDBFF then
                match rest1 with
                | bs :: u :: a2 :: b2 :: c2 :: d2 :: rest2 =>
                  match hex4 a2 b2 c2 d2 with
                  | some lo =>
                    if bs.toNat = 92 ∧ u = 'u' ∧ 0xDC00 ≤ lo ∧ lo ≤ 0xDFFF then
                      decodeString fuel
                        (Char.ofNat (0x10000 + (hi - 0xD800) * 0x400 + (lo - 0xDC00)) :: acc)
                        rest2
                    else decodeString fuel (Char.ofNat 0xFFFD :: acc) rest1
                  | none => decodeString fuel (Char.ofNat 0xFFFD :: acc) rest1
                | _ => decodeString fuel (Char.ofNat 0xFFFD :: acc) rest1
              else decodeString fuel (runeOfUnit hi :: acc) rest1
          | _ => none
        else none
    else if c.toNat < 32 then none
    else decodeString fuel (c :: acc) cs

/-- A run of decimal digits: their value, how many there are, and the rest. -/
def takeDigits (acc count : Nat) : List Char → Nat × Nat × List Char
  | [] => (acc, count, [])
  | c :: cs =>
    match digitVal c with
    | some d => takeDigits (acc * 10 + d) (count + 1) cs
    | none => (acc, count, c :: cs)

/-- The nearest `float64` to `num / den` (`num, den > 0`), ties to even, as a
bit pattern without the sign; `none` when it is out of range. -/
def roundFloat64 (num den : Nat) : Option Nat :=
  let k0 : Int := (Nat.log2 num : Int) - (Nat.log2 den : Int) - 53
  let scaled (k : Int) : Nat × Nat := (num * 2 ^ (-k).toNat, den * 2 ^ k.toNat)
  let k1 : Int := if (scaled k0).1 / (scaled k0).2 < 2 ^ 53 then k0 else k0 + 1
  let k : Int := if k1 < -1074 then -1074 else k1
  let n := (scaled k).1
  let d := (scaled k).2
  let q := n / d
  let r := n % d
  let q1 := if d < 2 * r ∨ (2 * r = d ∧ q % 2 = 1) then q + 1 else q
  let bits := (k + 1074).toNat * 2 ^ 52 + q1
  if bits < 2047 * 2 ^ 52 then some bits else none

/-- The `float64` for sign, decimal mantissa and decimal exponent; `none` when
the value is out of range. -/
def decimalToFloat64 (neg : Bool) (mant : Nat) (exp10 : Int) : Option Float64 :=
  let sign := if neg then 2 ^ 63 else 0
  if mant = 0 then some ⟨sign⟩
  else
    match roundFloat64 (mant * 10 ^ exp10.toNat) (10 ^ (-exp10).toNat) with
    | some b => some ⟨sign + b⟩
    | none => none

/-- An optional exponent part `e`, `e+` or `e-` followed by digits; `none`
when an exponent marker is not followed by digits. -/
def takeExponent : List Char → Option (Int × List Char)
  | [] => some (0, [])
  | c :: cs =>
    if c = 'e' ∨ c = 'E' then
      match cs with
      | [] => none
      | s :: rest =>
        if s = '-' then
          match takeDigits 0 0 rest with
          | (_, 0, _) => none
          | (e, _, rest1) => some (-(e : Int), rest1)
        else if s = '+' then
          match takeDigits 0 0 rest with
          | (_, 0, _) => none
          | (e, _, rest1) => some ((e : Int), rest1)
        else
          match takeDigits 0 0 (s :: rest) with
          | (_, 0, _) => none
          | (e, _, rest1) => some ((e : Int), rest1)
    else some (0, c :: cs)

/-- A JSON number literal: `-? (0 | [1-9][0-9]*) (. [0-9]+)? ([eE] [+-]? [0-9]+)?`. -/
def decodeNumber (cs : List Char) : Except String (Float64 × List Char) :=
  let neg := cs.head? = some '-'
  let body := if neg then cs.tail else cs
  match takeDigits 0 0 body with
  | (_, 0, _) => .error "invalid character looking for beginning of value"
  | (ip, icount, rest) =>
    if body.head? = some '0' ∧ 1 < icount then
      .error "invalid character after top-level value"
    else
      let frac : Option (Nat × Nat × List Char) :=
        match rest with
        | c :: rest1 =>
          if c = '.' then
            match takeDigits ip 0 rest1 with
            | (_, 0, _) => none
            | (m, fcount, rest2) => some (m, fcount, rest2)
          else some (ip, 0, rest)
        | [] => some (ip, 0, rest)
      match frac with
      | none => .error "invalid character after decimal point in numeric literal"
      | some (m, fcount, rest2) =>
        match takeExponent rest2 with
        | none => .error "invalid character in exponent of numeric literal"
        | some (e, rest3) =>
          match decimalToFloat64 neg m (e - (fcount : Int)) with
          | some f => .ok (f, rest3)
          | none => .error "cannot unmarshal number into Go value of type float64"

mutual
/-- One JSON value, after optional white space; the fuel bounds the nesting
and the number of elements. -/
def decodeValue : Nat → List Char → Except String (JVal × List Char)
  | 0, _ => .error "exceeded max depth"
  | fuel + 1, cs =>
    match skipSpace cs with
    | [] => .error "unexpected end of JSON input"
    | c :: rest =>
      if c.toNat = 123 then
        match skipSpace rest with
        | [] => .error "unexpected end of JSON input"
        | c1 :: rest1 =>
          if c1.toNat = 125 then .ok (.obj [], rest1)
          else decodeMembers fuel [] (c1 :: rest1)
      else if c = '[' then
        match skipSpace rest with
        | [] => .error "unexpected end of JSON input"
        | c1 :: rest1 =>
          if c1 = ']' then .ok (.arr [], rest1)
          else decodeElements fuel [] (c1 :: rest1)
      else if c.toNat = 34 then
        match decodeString rest.length [] rest with
        | some (s, rest1) => .ok (.str s, rest1)
        | none => .error "invalid string literal"
      else if c = 't' then
        match rest with
        | 'r' :: 'u' :: 'e' :: rest1 => .ok (.bool true, rest1)
        | _ => .error "invalid character in literal true"
      else if c = 'f' then
        match rest with
        | 'a' :: 'l' :: 's' :: 'e' :: rest1 => .ok (.bool false, rest1)
        | _ => .error "invalid character in literal false"
      else if c = 'n' then
        match rest with
        | 'u' :: 'l' :: 'l' :: rest1 => .ok (.null, rest1)
        | _ => .error "invalid character in literal null"
      else
        match decodeNumber (c :: rest) with
        | .ok (f, rest1) => .ok (.num f, rest1)
        | .error e => .error e
/-- The members of an object after `{` or `,`: `"key" : value`, then `,` or `}`. -/
def decodeMembers : Nat → JMap → List Char → Except String (JVal × List Char)
  | 0, _, _ => .error "exceeded max depth"
  | fuel + 1, acc, cs =>
    match skipSpace cs with
    | [] => .error "unexpected end of JSON input"
    | q :: rest =>
      if q.toNat = 34 then
        match decodeString rest.length [] rest with
        | none => .error "invalid string literal"
        | some (key, rest1) =>
          match skipSpace rest1 with
          | [] => .error "unexpected end of JSON input"
          | colon :: rest2 =>
            if colon = ':' then
              match decodeValue fuel rest2 with
              | .error e => .error e
              | .ok (v, rest3) =>
                match skipSpace rest3 with
                | [] => .error "unexpected end of JSON input"
                | sep :: rest4 =>
                  if sep = ',' then decodeMembers fuel (JMap.insert key v acc) rest4
                  else if sep.toNat = 125 then .ok (.obj (JMap.insert key v acc), rest4)
                  else .error "invalid character after object key:value pair"
            else .error "invalid character after object key"
      else .error "invalid character looking for beginning of object key string"
/-- The elements of an array after `[` or `,`: a value, then `,` or `]`. -/
def decodeElements : Nat → List JVal → List Char → Except String (JVal × List Char)
  | 0, _, _ => .error "exceeded max depth"
  | fuel + 1, acc, cs =>
    match decodeValue fuel cs with
    | .error e => .error e
    | .ok (v, rest) =>
      match skipSpace rest with
      | [] => .error "unexpected end of JSON input"
      | sep :: rest1 =>
        if sep = ',' then decodeElements fuel (v :: acc) rest1
        else if sep = ']' then .ok (.arr (v :: acc).reverse, rest1)
        else .error "invalid character after array element"
end

/-- The call `json.Unmarshal(message, &emptyinterface)`: one value, then only
white space. Two calls of the decoder in a row consume at least one character,
so the fuel is never used up. -/
def jsonUnmarshal (message : String) : Except String JVal :=
  match decodeValue (2 * message.data.length + 2) message.data with
  | .error e => .error e
  | .ok (v, rest) =>
    match skipSpace rest with
    | [] => .ok v
    | _ :: _ => .error "invalid character after top-level value"

/-- ASCII lower case. -/
def lowerAscii (c : Char) : Char :=
  if 65 ≤ c.toNat ∧ c.toNat ≤ 90 then Char.ofNat (c.toNat + 32) else c

/-- The names `strconv.ParseFloat` accepts in any case: `inf` and `infinity`,
with an optional sign, and `nan`. -/
def parseSpecial (cs : List Char) : Option Float64 :=
  let neg := cs.head? = some '-'
  let signed := neg ∨ cs.head? = some '+'
  let body := (if signed then cs.tail else cs).map lowerAscii
  if body = "inf".data ∨ body = "infinity".data then
    some ⟨(if neg then 2 ^ 63 else 0) + 2047 * 2 ^ 52⟩
  else if ¬ signed ∧ body = "nan".data then some ⟨0x7FF8000000000001⟩
  else none

/-- The value of `strconv.ParseFloat(s, 64)`: for a decimal literal
(`[+-]? digits [. digits] ([eE] [+-]? digits)?`, digits on at least one side of
the point) the nearest `float64`, or an infinity when it is out of range; for
the names of `parseSpecial` their value; `0` for any other text. -/
def parseFloat64 (s : String) : Float64 :=
  let cs := s.data
  match parseSpecial cs with
  | some f => f
  | none =>
    let neg := cs.head? = some '-'
    let body := if neg ∨ cs.head? = some '+' then cs.tail else cs
    match takeDigits 0 0 body with
    | (ip, icount, rest) =>
      let frac : Nat × Nat × List Char :=
        match rest with
        | c :: rest1 => if c = '.' then takeDigits ip 0 rest1 else (ip, 0, rest)
        | [] => (ip, 0, rest)
      match frac with
      | (m, fcount, rest2) =>
        if icount + fcount = 0 then Float64.zero
        else
          match takeExponent rest2 with
          | some (e, []) =>
            match decimalToFloat64 neg m (e - (fcount : Int)) with
            | some f => f
            | none => ⟨(if neg then 2 ^ 63 else 0) + 2047 * 2 ^ 52⟩
          | _ => Float64.zero

/-- The library as the program links it. -/
def goLib : Lib := { unmarshal := jsonUnmarshal, parseFloat := parseFloat64 }

/-- A run in which `range` produces the keys in the order they are stored. -/
def rangeStored : RangeOrder :=
  { keysOf := fun jm => JMap.keys jm, complete := fun _ _ h => h }

/-- A run in which `range` produces the keys in the opposite order. -/
def rangeReversed : RangeOrder :=
  { keysOf := fun jm => (JMap.keys jm).reverse,
    complete := fun _ _ h => List.mem_reverse.2 h }

/-! ## Auxiliary definitions used in the statements -/

/-- The key under which the renaming loop re-files the entry `k`, if it does:
`"renamed" + k` for a reserved name, `"renamed_" + k` for a reserved name
written without its leading underscore (lines 155-161). -/
def renameTarget (k : String) : Option String :=
  if gelfReservedField k then some ("renamed" ++ k)
  else if gelfReservedField ("_" ++ k) then some ("renamed_" ++ k)
  else none

/-- The payload starts with an opening brace and ends with a closing one
(the second and third operand of the test on lines 221-222). -/
def Braced (message : String) : Prop :=
  message.data.head? = some (Char.ofNat 123) ∧ message.data.getLast? = some (Char.ofNat 125)

instance (message : String) : Decidable (Braced message) := by
  unfold Braced
  infer_instance

/-- The indices of the deliveries handed to the sink, in the order of the trace. -/
def writeIndices : List Event → List Nat
  | [] => []
  | Event.write i _ _ :: rest => i :: writeIndices rest
  | _ :: rest => writeIndices rest

deriving instance DecidableEq for Except

/-- The entry for `key`, when the map has one, holds a string. -/
def StringIfPresent (key : String) (jm : JMap) : Prop :=
  match JMap.lookup key jm with
  | some (.str _) => True
  | some _ => False
  | none => True

instance (key : String) (jm : JMap) : Decidable (StringIfPresent key jm) := by
  unfold StringIfPresent
  split <;> infer_instance

/-- The string held under `key`, or the default when there is no entry. -/
def stringOr (dflt : String) : Option JVal → String
  | some (.str s) => s
  | _ => dflt

/-- Field-for-field identical records; the Extra maps are compared as maps
(the same value, or none, under every key). -/
def SameRecord (a b : Message) : Prop :=
  a.Version = b.Version ∧ a.Host = b.Host ∧ a.Short = b.Short ∧
    a.TimeUnix = b.TimeUnix ∧ a.Level = b.Level ∧
    ∀ q, JMap.lookup q a.Extra = JMap.lookup q b.Extra

/-- Two calls end the same way: the same error, the same panic, or records
that are field-for-field identical. -/
def SameOutcome : Outcome Message → Outcome Message → Prop
  | .ok a, .ok b => SameRecord a b
  | .error e, .error e' => e = e'
  | .fault f, .fault f' => f = f'
  | _, _ => False

/-- The index of the delivery an event is about, if it is about one. -/
def Event.index : Event → Option Nat
  | .write i _ _ => some i
  | .ack i _ => some i
  | .reject i _ => some i
  | _ => none

/-- The build of the record for the delivery at position `j` panics. -/
def panicsAt (lib : Lib) (range : Nat → RangeOrder) (ds : List Delivery) (j : Nat) : Bool :=
  match ds[j]? with
  | none => false
  | some d =>
    match buildGelfMessage lib (range j) d.Body d.ContentType with
    | .fault _ => true
    | _ => false

/-- The record for the delivery at position `j` is built and the sink
answers its write with an error. -/
def sinkFailsAt (lib : Lib) (range : Nat → RangeOrder)
    (sink : Nat → Message → Option String) (ds : List Delivery) (j : Nat) : Bool :=
  match ds[j]? with
  | none => false
  | some d =>
    match buildGelfMessage lib (range j) d.Body d.ContentType with
    | .ok gm => (sink j gm).isSome
    | _ => false

/-- The loop gets to the delivery at position `i`: no build before it
panicked, and at most `receivers` sink writes before it failed, so that none
of the sends on `done` before it was left without a receiver. -/
def Reached (lib : Lib) (range : Nat → RangeOrder) (sink : Nat → Message → Option String)
    (ds : List Delivery) (receivers i : Nat) : Prop :=
  (∀ j < i, panicsAt lib range ds j = false) ∧
    (List.range i).countP (sinkFailsAt lib range sink ds) ≤ receivers

instance (lib : Lib) (range : Nat → RangeOrder) (sink : Nat → Message → Option String)
    (ds : List Delivery) (receivers i : Nat) :
    Decidable (Reached lib range sink ds receivers i) := by
  unfold Reached
  infer_instance

/-! ## Maps -/

theorem JMap.lookup_erase_self (k : String) (jm : JMap) :
    JMap.lookup k (JMap.erase k jm) = none := by
  induction jm with
  | nil => rfl
  | cons kv rest ih =>
    obtain ⟨k', v⟩ := kv
    by_cases h : k' = k
    · simpa [JMap.erase, h] using ih
    · simpa [JMap.erase, JMap.lookup, h] using ih

theorem JMap.lookup_erase_ne {k q : String} (h : k ≠ q) (jm : JMap) :
    JMap.lookup q (JMap.erase k jm) = JMap.lookup q jm := by
  induction jm with
  | nil => rfl
  | cons kv rest ih =>
    obtain ⟨k', v⟩ := kv
    by_cases h1 : k' = k
    · subst h1
      simpa [JMap.erase, JMap.lookup, h] using ih
    · by_cases h2 : k' = q
      · subst h2
        simp [JMap.erase, JMap.lookup, List.filter, h1]
      · simpa [JMap.erase, JMap.lookup, List.filter, h1, h2] using ih

theorem JMap.lookup_insert_self (k : String) (v : JVal) (jm : JMap) :
    JMap.lookup k (JMap.insert k v jm) = some v := by
  simp [JMap.insert, JMap.lookup]

theorem JMap.lookup_insert_ne {k q : String} (h : k ≠ q) (v : JVal) (jm : JMap) :
    JMap.lookup q (JMap.insert k v jm) = JMap.lookup q jm := by
  simp [JMap.insert, JMap.lookup, h, JMap.lookup_erase_ne h]

theorem JMap.mem_keys_iff (k : String) (jm : JMap) :
    k ∈ JMap.keys jm ↔ JMap.lookup k jm ≠ none := by
  induction jm with
  | nil => simp [JMap.keys, JMap.lookup]
  | cons kv rest ih =>
    obtain ⟨k', v⟩ := kv
    by_cases h : k' = k
    · simp [JMap.keys, JMap.lookup, h]
    · have h' : ¬ k = k' := fun e => h e.symm
      simpa [JMap.keys, JMap.lookup, h, h'] using ih

theorem JMap.lookup_eq_none_of_not_mem {k : String} {jm : JMap}
    (h : k ∉ JMap.keys jm) : JMap.lookup k jm = none := by
  by_contra hne
  exact h ((JMap.mem_keys_iff k jm).2 hne)

theorem JMap.mem_keys_of_lookup {k : String} {v : JVal} {jm : JMap}
    (h : JMap.lookup k jm = some v) : k ∈ JMap.keys jm := by
  rw [JMap.mem_keys_iff, h]
  simp

/-! ## Reserved names -/

theorem gelfReservedField_renamed (r : String) :
    gelfReservedField ("renamed" ++ r) = false := by
  simp [gelfReservedField, String.ext_iff]

theorem gelfReservedField_underscore_renamed (r : String) :
    gelfReservedField ("_" ++ ("renamed" ++ r)) = false := by
  simp [gelfReservedField, String.ext_iff]

theorem renameTarget_renamed (r : String) : renameTarget ("renamed" ++ r) = none := by
  simp [renameTarget, gelfReservedField_renamed, gelfReservedField_underscore_renamed]

theorem renameTarget_prefix {k t : String} (h : renameTarget k = some t) :
    ∃ r, t = "renamed" ++ r := by
  unfold renameTarget at h
  split at h
  · exact ⟨k, by simpa using h.symm⟩
  · split at h
    · refine ⟨"_" ++ k, ?_⟩
      have : t = "renamed_" ++ k := by simpa using h.symm
      rw [this]
      simp [String.ext_iff]
    · simp at h

theorem renameTarget_target {k t : String} (h : renameTarget k = some t) :
    renameTarget t = none := by
  obtain ⟨r, rfl⟩ := renameTarget_prefix h
  exact renameTarget_renamed r

theorem renameTarget_ne_source {k t s u : String} (h : renameTarget k = some t)
    (hs : renameTarget s = some u) : t ≠ s := by
  intro e
  subst e
  rw [renameTarget_target h] at hs
  simp at hs

theorem renameTarget_reserved {k : String} (h : gelfReservedField k = true) :
    renameTarget k = some ("renamed" ++ k) := by
  simp [renameTarget, h]

theorem renameTarget_collide {a b t : String} (ha : renameTarget a = some t)
    (hb : renameTarget b = some t) : a = b ∨ a = "_" ++ b ∨ b = "_" ++ a := by
  unfold renameTarget at ha hb
  split at ha
  · split at hb
    · left
      have e : "renamed" ++ a = "renamed" ++ b := by
        simp only [Option.some.injEq] at ha hb; rw [ha, hb]
      simpa [String.ext_iff] using e
    · split at hb
      · right; left
        have e : "renamed" ++ a = "renamed_" ++ b := by
          simp only [Option.some.injEq] at ha hb; rw [ha, hb]
        simpa [String.ext_iff] using e
      · simp at hb
  · split at ha
    · split at hb
      · right; right
        have e : "renamed" ++ b = "renamed_" ++ a := by
          simp only [Option.some.injEq] at ha hb; rw [ha, hb]
        simpa [String.ext_iff] using e
      · split at hb
        · left
          have e : "renamed_" ++ a = "renamed_" ++ b := by
            simp only [Option.some.injEq] at ha hb; rw [ha, hb]
          simpa [String.ext_iff] using e
        · simp at hb
    · simp at ha

/-! ## The renaming loop -/

theorem renameStep_eq (jm : JMap) (k : String) :
    renameStep jm k =
      match JMap.lookup k jm, renameTarget k with
      | some v, some t => JMap.erase k (JMap.insert t v jm)
      | _, _ => jm := by
  unfold renameStep renameTarget
  cases JMap.lookup k jm with
  | none => rfl
  | some v =>
    by_cases h1 : gelfReservedField k = true
    · simp [h1]
    · by_cases h2 : gelfReservedField ("_" ++ k) = true
      · simp [h1, h2]
      · simp [h1, h2]

theorem renameStep_of_absent {jm : JMap} {k : String} (h : JMap.lookup k jm = none) :
    renameStep jm k = jm := by
  rw [renameStep_eq, h]

theorem renameStep_of_no_target {jm : JMap} {k : String} (h : renameTarget k = none) :
    renameStep jm k = jm := by
  rw [renameStep_eq, h]
  cases JMap.lookup k jm <;> rfl

theorem renameStep_of_entry {jm : JMap} {k t : String} {v : JVal}
    (hv : JMap.lookup k jm = some v) (ht : renameTarget k = some t) :
    renameStep jm k = JMap.erase k (JMap.insert t v jm) := by
  rw [renameStep_eq, hv, ht]

theorem renameTarget_ne_self {k t : String} (h : renameTarget k = some t) : t ≠ k :=
  renameTarget_ne_source h h

/-- An entry other than the visited one and other than its target is left alone. -/
theorem lookup_renameStep_other {jm : JMap} {k x : String} (hx : x ≠ k)
    (ht : renameTarget k ≠ some x) :
    JMap.lookup x (renameStep jm k) = JMap.lookup x jm := by
  cases hv : JMap.lookup k jm with
  | none => rw [renameStep_of_absent hv]
  | some v =>
    cases hk : renameTarget k with
    | none => rw [renameStep_of_no_target hk]
    | some t =>
      have htx : t ≠ x := fun e => ht (by rw [hk, e])
      rw [renameStep_of_entry hv hk, JMap.lookup_erase_ne (Ne.symm hx),
        JMap.lookup_insert_ne htx]

/-- After a renamable key is visited it is not in the map. -/
theorem lookup_renameStep_self {jm : JMap} {k t : String} (ht : renameTarget k = some t) :
    JMap.lookup k (renameStep jm k) = none := by
  cases hv : JMap.lookup k jm with
  | none => rw [renameStep_of_absent hv, hv]
  | some v => rw [renameStep_of_entry hv ht, JMap.lookup_erase_self]

/-- Visiting a renamable entry files its value under the target key. -/
theorem lookup_renameStep_target {jm : JMap} {k t : String} {v : JVal}
    (ht : renameTarget k = some t) (hv : JMap.lookup k jm = some v) :
    JMap.lookup t (renameStep jm k) = some v := by
  rw [renameStep_of_entry hv ht, JMap.lookup_erase_ne (Ne.symm (renameTarget_ne_self ht)),
    JMap.lookup_insert_self]

/-- A renamable key that is not in the map is not put there by a step. -/
theorem lookup_renameStep_source_none {jm : JMap} {k q u : String}
    (hq : renameTarget q = some u) (hn : JMap.lookup q jm = none) :
    JMap.lookup q (renameStep jm k) = none := by
  by_cases hk : q = k
  · subst hk
    exact lookup_renameStep_self hq
  · rw [lookup_renameStep_other hk, hn]
    intro h
    exact renameTarget_ne_source h hq rfl

/-- A key that is neither renamable nor the target of an entry that gets
visited keeps its value through the loop. -/
theorem lookup_renameReserved_untouched {q : String} (hq : renameTarget q = none) :
    ∀ (order : List String) (jm : JMap),
      (∀ s ∈ order, renameTarget s = some q → JMap.lookup s jm = none) →
      JMap.lookup q (renameReserved order jm) = JMap.lookup q jm := by
  intro order
  induction order with
  | nil => intro jm _; rfl
  | cons k rest ih =>
    intro jm h
    have hstep : JMap.lookup q (renameStep jm k) = JMap.lookup q jm := by
      by_cases hk : renameTarget k = none
      · rw [renameStep_of_no_target hk]
      · have hqk : q ≠ k := fun e => hk (e ▸ hq)
        by_cases hv : JMap.lookup k jm = none
        · rw [renameStep_of_absent hv]
        · exact lookup_renameStep_other hqk
            (fun e => hv (h k (List.mem_cons_self _ _) e))
    have hrest : ∀ s ∈ rest, renameTarget s = some q →
        JMap.lookup s (renameStep jm k) = none := by
      intro s hs hsq
      exact lookup_renameStep_source_none hsq (h s (List.mem_cons_of_mem _ hs) hsq)
    show JMap.lookup q (renameReserved rest (renameStep jm k)) = _
    rw [ih (renameStep jm k) hrest, hstep]

/-- A renamable key that is not in the map stays out of it. -/
theorem lookup_renameReserved_source_none {q u : String} (hq : renameTarget q = some u) :
    ∀ (order : List String) (jm : JMap), JMap.lookup q jm = none →
      JMap.lookup q (renameReserved order jm) = none := by
  intro order
  induction order with
  | nil => intro jm h; exact h
  | cons k rest ih =>
    intro jm h
    exact ih (renameStep jm k) (lookup_renameStep_source_none hq h)

/-- A renamable key that the loop visits is not in the map afterwards. -/
theorem lookup_renameReserved_source {q u : String} (hq : renameTarget q = some u) :
    ∀ (order : List String) (jm : JMap), q ∈ order →
      JMap.lookup q (renameReserved order jm) = none := by
  intro order
  induction order with
  | nil => intro jm h; simp at h
  | cons k rest ih =>
    intro jm h
    by_cases hk : q = k
    · subst hk
      exact lookup_renameReserved_source_none hq rest _ (lookup_renameStep_self hq)
    · have hmem : q ∈ rest := by
        rcases List.mem_cons.1 h with e | e
        · exact absurd e hk
        · exact e
      exact ih (renameStep jm k) hmem

/-- The value of a visited renamable entry ends up under its target key, when
no other entry with the same target is in the map. -/
theorem lookup_renameReserved_target {s t : String} {v : JVal}
    (hs : renameTarget s = some t) :
    ∀ (order : List String) (jm : JMap), JMap.lookup s jm = some v → s ∈ order →
      (∀ r ∈ order, renameTarget r = some t → r ≠ s → JMap.lookup r jm = none) →
      JMap.lookup t (renameReserved order jm) = some v := by
  intro order
  induction order with
  | nil => intro jm _ h; simp at h
  | cons k rest ih =>
    intro jm hv hmem hothers
    by_cases hk : s = k
    · subst hk
      have hrest : ∀ r ∈ rest, renameTarget r = some t →
          JMap.lookup r (renameStep jm s) = none := by
        intro r hr hrt
        by_cases hrs : r = s
        · subst hrs
          exact lookup_renameStep_self hs
        · exact lookup_renameStep_source_none hrt
            (hothers r (List.mem_cons_of_mem _ hr) hrt hrs)
      show JMap.lookup t (renameReserved rest (renameStep jm s)) = some v
      rw [lookup_renameReserved_untouched (renameTarget_target hs) rest _ hrest]
      exact lookup_renameStep_target hs hv
    · have hmem' : s ∈ rest := by
        rcases List.mem_cons.1 hmem with e | e
        · exact absurd e hk
        · exact e
      have hv' : JMap.lookup s (renameStep jm k) = some v := by
        rw [lookup_renameStep_other hk, hv]
        intro h
        exact renameTarget_ne_source h hs rfl
      have hothers' : ∀ r ∈ rest, renameTarget r = some t → r ≠ s →
          JMap.lookup r (renameStep jm k) = none := by
        intro r hr hrt hrs
        exact lookup_renameStep_source_none hrt
          (hothers r (List.mem_cons_of_mem _ hr) hrt hrs)
      exact ih (renameStep jm k) hv' hmem' hothers'

/-- A map without renamable keys is left as it is, entry for entry. -/
theorem renameReserved_eq_self :
    ∀ (order : List String) (jm : JMap),
      (∀ k ∈ JMap.keys jm, renameTarget k = none) → renameReserved order jm = jm := by
  intro order
  induction order with
  | nil => intro jm _; rfl
  | cons k rest ih =>
    intro jm h
    have hstep : renameStep jm k = jm := by
      by_cases hk : k ∈ JMap.keys jm
      · exact renameStep_of_no_target (h k hk)
      · exact renameStep_of_absent (JMap.lookup_eq_none_of_not_mem hk)
    show renameReserved rest (renameStep jm k) = jm
    rw [hstep]
    exact ih jm h

/-- The keys the record builder reads are never touched by the renaming. -/
theorem lookup_renameReserved_plain {q : String} (hq : renameTarget q = none)
    (hpre : ∀ r, q ≠ "renamed" ++ r) (order : List String) (jm : JMap) :
    JMap.lookup q (renameReserved order jm) = JMap.lookup q jm := by
  apply lookup_renameReserved_untouched hq
  intro s _ hs
  obtain ⟨r, hr⟩ := renameTarget_prefix hs
  exact absurd hr (hpre r)

/-! ## The dispatch in buildGelfMessage -/

theorem buildGelfMessage_of_other_type (lib : Lib) (rng : RangeOrder) (message ctype : String)
    (h : ¬ (ctype = "application/json" ∨ ctype = "text/json")) :
    buildGelfMessage lib rng message ctype = buildGelfMessage_text message := by
  unfold buildGelfMessage
  rw [if_neg h]

theorem buildGelfMessage_of_empty (lib : Lib) (rng : RangeOrder) (ctype : String)
    (h : ctype = "application/json" ∨ ctype = "text/json") :
    buildGelfMessage lib rng "" ctype = .fault (.indexOutOfRange 0 0) := by
  unfold buildGelfMessage
  rw [if_pos h]
  rfl

theorem byteAt_zero {message : String} {c : Char} (h : message.data.head? = some c) :
    byteAt message 0 = .ok c := by
  unfold byteAt
  cases hd : message.data with
  | nil => rw [hd] at h; simp at h
  | cons x xs =>
    rw [hd] at h
    simp at h
    simp [h]

theorem byteAt_last {message : String} {c : Char} (h : message.data.getLast? = some c) :
    byteAt message (message.data.length - 1) = .ok c := by
  unfold byteAt
  rw [List.getLast?_eq_getElem?] at h
  rw [h]

theorem buildGelfMessage_of_braced (lib : Lib) (rng : RangeOrder) (message ctype : String)
    (h : ctype = "application/json" ∨ ctype = "text/json") (hb : Braced message) :
    buildGelfMessage lib rng message ctype = buildGelfMessage_json lib rng message := by
  unfold buildGelfMessage
  rw [if_pos h, byteAt_zero hb.1]
  simp only [Outcome.bind, if_true]
  rw [byteAt_last hb.2]
  simp only [if_true]

theorem buildGelfMessage_of_not_braced (lib : Lib) (rng : RangeOrder)
    (message ctype : String) (hne : message ≠ "") (hb : ¬ Braced message) :
    buildGelfMessage lib rng message ctype = buildGelfMessage_text message := by
  unfold buildGelfMessage
  split
  · have hdata : message.data ≠ [] := by
      intro e
      apply hne
      apply String.ext
      rw [e]
    obtain ⟨c, hc⟩ : ∃ c, message.data.head? = some c := by
      cases hd : message.data with
      | nil => exact absurd hd hdata
      | cons x xs => exact ⟨x, rfl⟩
    obtain ⟨l, hl⟩ : ∃ l, message.data.getLast? = some l := by
      cases hd : message.data.getLast? with
      | none => rw [List.getLast?_eq_none_iff] at hd; exact absurd hd hdata
      | some l => exact ⟨l, rfl⟩
    rw [byteAt_zero hc]
    simp only [Outcome.bind]
    split
    · rw [byteAt_last hl]
      simp only [Outcome.bind]
      split
      · exfalso
        apply hb
        constructor
        · rw [hc]; congr
        · rw [hl]; congr
      · rfl
    · rfl
  · rfl

/-! ## Field extraction -/

theorem buildGelfMessage_json_obj {lib : Lib} {message : String} {m : JMap}
    (rng : RangeOrder) (h : lib.unmarshal message = .ok (.obj m)) :
    buildGelfMessage_json lib rng message =
      extractFields lib (renameReserved (rng.keysOf m) m) := by
  unfold buildGelfMessage_json
  rw [h]
  rfl

theorem buildGelfMessage_json_error {lib : Lib} {message e : String}
    (rng : RangeOrder) (h : lib.unmarshal message = .error e) :
    buildGelfMessage_json lib rng message = .error e := by
  unfold buildGelfMessage_json
  rw [h]

theorem extractFields_extra {lib : Lib} {jm : JMap} {gm : Message}
    (h : extractFields lib jm = .ok gm) : gm.Extra = jm := by
  unfold extractFields at h
  cases h1 : stringField jm "host" "unknown_amqp" <;> rw [h1] at h <;>
    simp only [Outcome.bind] at h <;> try cases h
  cases h2 : stringField jm "short_message" "" <;> rw [h2] at h <;>
    simp only [Outcome.bind] at h <;> try cases h
  cases h3 : levelField jm <;> rw [h3] at h <;>
    simp only [Outcome.bind] at h <;> try cases h
  cases h4 : stringField jm "version" "1.1" <;> rw [h4] at h <;>
    simp only [Outcome.bind] at h <;> try cases h
  rfl

theorem extractFields_timeUnix {lib : Lib} {jm : JMap} {gm : Message}
    (h : extractFields lib jm = .ok gm) : gm.TimeUnix = timestampField lib jm := by
  unfold extractFields at h
  cases h1 : stringField jm "host" "unknown_amqp" <;> rw [h1] at h <;>
    simp only [Outcome.bind] at h <;> try cases h
  cases h2 : stringField jm "short_message" "" <;> rw [h2] at h <;>
    simp only [Outcome.bind] at h <;> try cases h
  cases h3 : levelField jm <;> rw [h3] at h <;>
    simp only [Outcome.bind] at h <;> try cases h
  cases h4 : stringField jm "version" "1.1" <;> rw [h4] at h <;>
    simp only [Outcome.bind] at h <;> try cases h
  rfl

theorem stringField_congr {jm jm' : JMap} {key : String} (dflt : String)
    (h : JMap.lookup key jm = JMap.lookup key jm') :
    stringField jm key dflt = stringField jm' key dflt := by
  unfold stringField
  rw [h]

theorem extractFields_congr (lib : Lib) {jm jm' : JMap}
    (hhost : JMap.lookup "host" jm = JMap.lookup "host" jm')
    (hshort : JMap.lookup "short_message" jm = JMap.lookup "short_message" jm')
    (hts : JMap.lookup "timestamp" jm = JMap.lookup "timestamp" jm')
    (hlevel : JMap.lookup "level" jm = JMap.lookup "level" jm')
    (hversion : JMap.lookup "version" jm = JMap.lookup "version" jm') :
    extractFields lib jm =
      (extractFields lib jm').bind fun gm => .ok { gm with Extra := jm } := by
  unfold extractFields
  rw [stringField_congr "unknown_amqp" hhost, stringField_congr "" hshort,
    stringField_congr "1.1" hversion]
  have hl : levelField jm = levelField jm' := by unfold levelField; rw [hlevel]
  have ht : timestampField lib jm = timestampField lib jm' := by
    unfold timestampField; rw [hts]
  rw [hl, ht]
  cases stringField jm' "host" "unknown_amqp" <;> simp only [Outcome.bind]
  cases stringField jm' "short_message" "" <;> simp only [Outcome.bind]
  cases levelField jm' <;> simp only [Outcome.bind]
  cases stringField jm' "version" "1.1" <;> simp only [Outcome.bind]

/-- The five keys the builder reads hold, after the renaming loop, what the
decoded object holds under them. -/
theorem lookup_renameReserved_field {q : String}
    (hq : q ∈ ["host", "short_message", "timestamp", "level", "version"])
    (order : List String) (jm : JMap) :
    JMap.lookup q (renameReserved order jm) = JMap.lookup q jm := by
  simp only [List.mem_cons, List.mem_singleton, List.not_mem_nil, or_false] at hq
  rcases hq with h | h | h | h | h <;> subst h <;>
    exact lookup_renameReserved_plain (by decide) (by intro r; simp [String.ext_iff]) order jm

/-- The outcome of the JSON build on a decoded object, in terms of the fields
of the object itself. -/
theorem buildGelfMessage_json_fields {lib : Lib} {message : String} {m : JMap}
    (rng : RangeOrder) (h : lib.unmarshal message = .ok (.obj m)) :
    buildGelfMessage_json lib rng message =
      (extractFields lib m).bind fun gm =>
        .ok { gm with Extra := renameReserved (rng.keysOf m) m } := by
  rw [buildGelfMessage_json_obj rng h]
  exact extractFields_congr lib
    (lookup_renameReserved_field (by decide) _ _)
    (lookup_renameReserved_field (by decide) _ _)
    (lookup_renameReserved_field (by decide) _ _)
    (lookup_renameReserved_field (by decide) _ _)
    (lookup_renameReserved_field (by decide) _ _)

theorem stringField_of_typed {jm : JMap} {key : String} (dflt : String)
    (h : StringIfPresent key jm) :
    stringField jm key dflt = .ok (stringOr dflt (JMap.lookup key jm)) := by
  unfold StringIfPresent at h
  unfold stringField
  cases hv : JMap.lookup key jm with
  | none => rfl
  | some v =>
    rw [hv] at h
    cases v <;> first | rfl | exact absurd h (by simp)

theorem levelField_of_absent {jm : JMap} (hv : JMap.lookup "level" jm = none) :
    levelField jm = .ok 6 := by
  unfold levelField
  rw [hv]

/-- A successful JSON build decoded an object, and its Extra is that object
after the renaming loop. -/
theorem buildGelfMessage_json_ok {lib : Lib} {rng : RangeOrder} {message : String}
    {gm : Message} (h : buildGelfMessage_json lib rng message = .ok gm) :
    ∃ m, lib.unmarshal message = .ok (.obj m) ∧
      gm.Extra = renameReserved (rng.keysOf m) m := by
  cases hu : lib.unmarshal message with
  | error e => rw [buildGelfMessage_json_error rng hu] at h; cases h
  | ok v =>
    cases v with
    | obj m =>
      refine ⟨m, rfl, ?_⟩
      rw [buildGelfMessage_json_obj rng hu] at h
      exact extractFields_extra h
    | null => unfold buildGelfMessage_json at h; rw [hu] at h; cases h
    | bool b => unfold buildGelfMessage_json at h; rw [hu] at h; cases h
    | num f => unfold buildGelfMessage_json at h; rw [hu] at h; cases h
    | str t => unfold buildGelfMessage_json at h; rw [hu] at h; cases h
    | arr xs => unfold buildGelfMessage_json at h; rw [hu] at h; cases h

/-- A successful build took the plain-text path or the JSON path. -/
theorem buildGelfMessage_ok {lib : Lib} {rng : RangeOrder} {message ctype : String}
    {gm : Message} (h : buildGelfMessage lib rng message ctype = .ok gm) :
    buildGelfMessage_text message = .ok gm ∨
      ((ctype = "application/json" ∨ ctype = "text/json") ∧ Braced message ∧
        buildGelfMessage_json lib rng message = .ok gm) := by
  by_cases hct : ctype = "application/json" ∨ ctype = "text/json"
  · by_cases hb : Braced message
    · rw [buildGelfMessage_of_braced lib rng message ctype hct hb] at h
      exact Or.inr ⟨hct, hb, h⟩
    · by_cases he : message = ""
      · subst he
        rw [buildGelfMessage_of_empty lib rng ctype hct] at h
        cases h
      · rw [buildGelfMessage_of_not_braced lib rng message ctype he hb] at h
        exact Or.inl h
  · rw [buildGelfMessage_of_other_type lib rng message ctype hct] at h
    exact Or.inl h

/-- No renamable key is left in the map by a loop that visits every key. -/
theorem lookup_renameReserved_renamable (rng : RangeOrder) (m : JMap) {k t : String}
    (hk : renameTarget k = some t) :
    JMap.lookup k (renameReserved (rng.keysOf m) m) = none := by
  by_cases hmem : k ∈ JMap.keys m
  · exact lookup_renameReserved_source hk _ _ (rng.complete m k hmem)
  · exact lookup_renameReserved_source_none hk _ _ (JMap.lookup_eq_none_of_not_mem hmem)

theorem renameTarget_underscore_reserved {k : String} (h : gelfReservedField k = true) :
    renameTarget ("_" ++ k) = none := by
  have hc : k = "_id" ∨ k = "_ttl" ∨ k = "_source" ∨ k = "_all" ∨ k = "_index" ∨
      k = "_type" ∨ k = "_score" := by
    simpa [gelfReservedField] using h
  rcases hc with h | h | h | h | h | h | h <;> subst h <;> decide

/-! ## Renaming without collisions -/

theorem JMap.mem_keys_erase (x k : String) (jm : JMap) :
    x ∈ JMap.keys (JMap.erase k jm) ↔ x ≠ k ∧ x ∈ JMap.keys jm := by
  rw [JMap.mem_keys_iff, JMap.mem_keys_iff]
  by_cases h : x = k
  · subst h
    simp [JMap.lookup_erase_self]
  · rw [JMap.lookup_erase_ne (Ne.symm h)]
    simp [h]

theorem JMap.mem_keys_insert (x t : String) (v : JVal) (jm : JMap) :
    x ∈ JMap.keys (JMap.insert t v jm) ↔ x = t ∨ x ∈ JMap.keys jm := by
  rw [JMap.mem_keys_iff, JMap.mem_keys_iff]
  by_cases h : x = t
  · subst h
    simp [JMap.lookup_insert_self]
  · rw [JMap.lookup_insert_ne (Ne.symm h)]
    simp [h]

/-- Re-filing an entry under a key that is not in the map keeps the number of
entries. -/
theorem JMap.len_refile {jm : JMap} {k t : String} (v : JVal)
    (hk : k ∈ JMap.keys jm) (ht : t ∉ JMap.keys jm) (hne : t ≠ k) :
    JMap.len (JMap.erase k (JMap.insert t v jm)) = JMap.len jm := by
  unfold JMap.len
  have hset : (JMap.keys (JMap.erase k (JMap.insert t v jm))).toFinset =
      Insert.insert t ((JMap.keys jm).toFinset.erase k) := by
    ext x
    simp only [List.mem_toFinset, JMap.mem_keys_erase, JMap.mem_keys_insert,
      Finset.mem_insert, Finset.mem_erase]
    constructor
    · rintro ⟨hxk, hx | hx⟩
      · exact Or.inl hx
      · exact Or.inr ⟨hxk, hx⟩
    · rintro (hx | ⟨hxk, hx⟩)
      · exact ⟨hx ▸ hne, Or.inl hx⟩
      · exact ⟨hxk, Or.inr hx⟩
  rw [hset, Finset.card_insert_of_not_mem, Finset.card_erase_of_mem]
  · have hpos : 0 < (JMap.keys jm).toFinset.card :=
      Finset.card_pos.2 ⟨k, List.mem_toFinset.2 hk⟩
    omega
  · exact List.mem_toFinset.2 hk
  · intro h
    exact ht (List.mem_toFinset.1 (Finset.mem_of_mem_erase h))

/-- One step keeps the two no-collision conditions and the number of entries. -/
theorem renameStep_keeps {jm : JMap} (k : String)
    (hfree : ∀ s t, s ∈ JMap.keys jm → renameTarget s = some t → t ∉ JMap.keys jm)
    (hinj : ∀ a b t, a ∈ JMap.keys jm → b ∈ JMap.keys jm → renameTarget a = some t →
      renameTarget b = some t → a = b) :
    (∀ s t, s ∈ JMap.keys (renameStep jm k) → renameTarget s = some t →
        t ∉ JMap.keys (renameStep jm k)) ∧
    (∀ a b t, a ∈ JMap.keys (renameStep jm k) → b ∈ JMap.keys (renameStep jm k) →
        renameTarget a = some t → renameTarget b = some t → a = b) ∧
    JMap.len (renameStep jm k) = JMap.len jm := by
  cases hv : JMap.lookup k jm with
  | none => rw [renameStep_of_absent hv]; exact ⟨hfree, hinj, rfl⟩
  | some v =>
    cases hk : renameTarget k with
    | none => rw [renameStep_of_no_target hk]; exact ⟨hfree, hinj, rfl⟩
    | some t =>
      have hkm : k ∈ JMap.keys jm := JMap.mem_keys_of_lookup hv
      have hold : ∀ s u, s ∈ JMap.keys (JMap.erase k (JMap.insert t v jm)) →
          renameTarget s = some u → s ≠ k ∧ s ∈ JMap.keys jm := by
        intro s u hs hsu
        rw [JMap.mem_keys_erase, JMap.mem_keys_insert] at hs
        rcases hs with ⟨hsk, hst | hs⟩
        · exact absurd hst.symm (renameTarget_ne_source hk hsu)
        · exact ⟨hsk, hs⟩
      rw [renameStep_of_entry hv hk]
      refine ⟨?_, ?_, JMap.len_refile v hkm (hfree k t hkm hk) (renameTarget_ne_self hk)⟩
      · intro s u hs hsu hu
        obtain ⟨hsk, hsm⟩ := hold s u hs hsu
        rw [JMap.mem_keys_erase, JMap.mem_keys_insert] at hu
        rcases hu with ⟨_, hut | hu⟩
        · subst hut
          exact hsk (hinj s k u hsm hkm hsu hk)
        · exact hfree s u hsm hsu hu
      · intro a b u ha hb hau hbu
        exact hinj a b u (hold a u ha hau).2 (hold b u hb hbu).2 hau hbu

/-- Without collisions the loop keeps the number of entries. -/
theorem renameReserved_len :
    ∀ (order : List String) (jm : JMap),
      (∀ s t, s ∈ JMap.keys jm → renameTarget s = some t → t ∉ JMap.keys jm) →
      (∀ a b t, a ∈ JMap.keys jm → b ∈ JMap.keys jm → renameTarget a = some t →
        renameTarget b = some t → a = b) →
      JMap.len (renameReserved order jm) = JMap.len jm := by
  intro order
  induction order with
  | nil => intro jm _ _; rfl
  | cons k rest ih =>
    intro jm hfree hinj
    obtain ⟨h1, h2, h3⟩ := renameStep_keeps k hfree hinj
    show JMap.len (renameReserved rest (renameStep jm k)) = JMap.len jm
    rw [ih (renameStep jm k) h1 h2, h3]

theorem gelfReservedField_double_underscore (b : String) :
    gelfReservedField ("_" ++ ("_" ++ b)) = false := by
  simp [gelfReservedField, String.ext_iff]

/-- When no object holds both a reserved key and that key without its
underscore, two keys of the object with the same target are the same key. -/
theorem renameTarget_injOn {m : JMap}
    (hpair : ∀ k ∈ JMap.keys m, gelfReservedField ("_" ++ k) = true →
      "_" ++ k ∉ JMap.keys m) :
    ∀ a b t, a ∈ JMap.keys m → b ∈ JMap.keys m → renameTarget a = some t →
      renameTarget b = some t → a = b := by
  have key : ∀ a b t, a ∈ JMap.keys m → b ∈ JMap.keys m → renameTarget a = some t →
      a = "_" ++ b → False := by
    intro a b t ha hb hat e
    subst e
    have hres : gelfReservedField ("_" ++ b) = true := by
      unfold renameTarget at hat
      split at hat
      · assumption
      · rw [gelfReservedField_double_underscore] at hat
        simp at hat
    exact hpair b hb hres ha
  intro a b t ha hb hat hbt
  rcases renameTarget_collide hat hbt with e | e | e
  · exact e
  · exact absurd e (fun e => key a b t ha hb hat e)
  · exact absurd e (fun e => key b a t hb ha hbt e)

/-- The free-target condition, from its statement in terms of the two tests
of the loop. -/
theorem renameTarget_free {m : JMap}
    (hfree1 : ∀ k ∈ JMap.keys m, gelfReservedField k = true →
      "renamed" ++ k ∉ JMap.keys m)
    (hfree2 : ∀ k ∈ JMap.keys m, gelfReservedField ("_" ++ k) = true →
      "renamed_" ++ k ∉ JMap.keys m) :
    ∀ s t, s ∈ JMap.keys m → renameTarget s = some t → t ∉ JMap.keys m := by
  intro s t hs hst
  unfold renameTarget at hst
  split at hst
  · cases hst
    exact hfree1 s hs ‹_›
  · split at hst
    · cases hst
      exact hfree2 s hs ‹_›
    · cases hst

/-- With a single entry per target, the map after the loop is the same map
whatever the order of the visits. -/
theorem lookup_renameReserved_order (rng1 rng2 : RangeOrder) (m : JMap)
    (hinj : ∀ a b t, a ∈ JMap.keys m → b ∈ JMap.keys m → renameTarget a = some t →
      renameTarget b = some t → a = b) (q : String) :
    JMap.lookup q (renameReserved (rng1.keysOf m) m) =
      JMap.lookup q (renameReserved (rng2.keysOf m) m) := by
  cases hq : renameTarget q with
  | some t =>
    rw [lookup_renameReserved_renamable rng1 m hq, lookup_renameReserved_renamable rng2 m hq]
  | none =>
    by_cases hex : ∃ s, s ∈ JMap.keys m ∧ renameTarget s = some q
    · obtain ⟨s, hs, hsq⟩ := hex
      obtain ⟨v, hv⟩ : ∃ v, JMap.lookup s m = some v := by
        cases hl : JMap.lookup s m with
        | none => exact absurd hl ((JMap.mem_keys_iff s m).1 hs)
        | some v => exact ⟨v, rfl⟩
      have hothers : ∀ (order : List String), ∀ r ∈ order, renameTarget r = some q →
          r ≠ s → JMap.lookup r m = none := by
        intro order r _ hr hne
        by_contra hl
        exact hne (hinj r s q ((JMap.mem_keys_iff r m).2 hl) hs hr hsq)
      rw [lookup_renameReserved_target hsq _ _ hv (rng1.complete m s hs) (hothers _),
        lookup_renameReserved_target hsq _ _ hv (rng2.complete m s hs) (hothers _)]
    · have hnone : ∀ (order : List String), ∀ s ∈ order, renameTarget s = some q →
          JMap.lookup s m = none := by
        intro order s _ hsq
        by_contra hl
        exact hex ⟨s, (JMap.mem_keys_iff s m).2 hl, hsq⟩
      rw [lookup_renameReserved_untouched hq _ _ (hnone _),
        lookup_renameReserved_untouched hq _ _ (hnone _)]

/-! ## The delivery loop -/

theorem deliveryLoop_error (lib : Lib) (range : Nat → RangeOrder)
    (sink : Nat → Message → Option String) (d : Delivery) (ds : List Delivery) (i r : Nat)
    {e : String} (h : buildGelfMessage lib (range i) d.Body d.ContentType = .error e) :
    deliveryLoop lib range sink (d :: ds) i r =
      Event.reject i false :: deliveryLoop lib range sink ds (i + 1) r := by
  rw [deliveryLoop, h]

theorem deliveryLoop_fault (lib : Lib) (range : Nat → RangeOrder)
    (sink : Nat → Message → Option String) (d : Delivery) (ds : List Delivery) (i r : Nat)
    {f : Fault} (h : buildGelfMessage lib (range i) d.Body d.ContentType = .fault f) :
    deliveryLoop lib range sink (d :: ds) i r = [Event.crash f] := by
  rw [deliveryLoop, h]

theorem deliveryLoop_written (lib : Lib) (range : Nat → RangeOrder)
    (sink : Nat → Message → Option String) (d : Delivery) (ds : List Delivery) (i r : Nat)
    {gm : Message} (h : buildGelfMessage lib (range i) d.Body d.ContentType = .ok gm)
    (hs : sink i gm = none) :
    deliveryLoop lib range sink (d :: ds) i r =
      Event.write i gm none :: Event.ack i false ::
        deliveryLoop lib range sink ds (i + 1) r := by
  rw [deliveryLoop, h]
  simp only [hs]

theorem deliveryLoop_sink_error (lib : Lib) (range : Nat → RangeOrder)
    (sink : Nat → Message → Option String) (d : Delivery) (ds : List Delivery) (i r : Nat)
    {gm : Message} {err : String}
    (h : buildGelfMessage lib (range i) d.Body d.ContentType = .ok gm)
    (hs : sink i gm = some err) (hr : 0 < r) :
    deliveryLoop lib range sink (d :: ds) i r =
      Event.write i gm (some err) :: Event.done ("Cannot send gelf msg: " ++ err) ::
        Event.reject i false :: deliveryLoop lib range sink ds (i + 1) (r - 1) := by
  rw [deliveryLoop, h]
  simp only [hs]
  rw [if_neg (by omega)]

theorem deliveryLoop_sink_error_blocked (lib : Lib) (range : Nat → RangeOrder)
    (sink : Nat → Message → Option String) (d : Delivery) (ds : List Delivery) (i : Nat)
    {gm : Message} {err : String}
    (h : buildGelfMessage lib (range i) d.Body d.ContentType = .ok gm)
    (hs : sink i gm = some err) :
    deliveryLoop lib range sink (d :: ds) i 0 =
      [Event.write i gm (some err), Event.blocked ("Cannot send gelf msg: " ++ err)] := by
  rw [deliveryLoop, h]
  simp [hs]

/-- The five ways one iteration of the loop can go. -/
theorem deliveryLoop_cons_cases (lib : Lib) (range : Nat → RangeOrder)
    (sink : Nat → Message → Option String) (d : Delivery) (ds : List Delivery) (i r : Nat) :
    (∃ f, deliveryLoop lib range sink (d :: ds) i r = [Event.crash f]) ∨
    (deliveryLoop lib range sink (d :: ds) i r =
      Event.reject i false :: deliveryLoop lib range sink ds (i + 1) r) ∨
    (∃ gm, buildGelfMessage lib (range i) d.Body d.ContentType = .ok gm ∧ sink i gm = none ∧
      deliveryLoop lib range sink (d :: ds) i r =
        Event.write i gm none :: Event.ack i false ::
          deliveryLoop lib range sink ds (i + 1) r) ∨
    (∃ gm err, buildGelfMessage lib (range i) d.Body d.ContentType = .ok gm ∧
      sink i gm = some err ∧
      deliveryLoop lib range sink (d :: ds) i r =
        [Event.write i gm (some err), Event.blocked ("Cannot send gelf msg: " ++ err)]) ∨
    (∃ gm err, buildGelfMessage lib (range i) d.Body d.ContentType = .ok gm ∧
      sink i gm = some err ∧
      deliveryLoop lib range sink (d :: ds) i r =
        Event.write i gm (some err) :: Event.done ("Cannot send gelf msg: " ++ err) ::
          Event.reject i false :: deliveryLoop lib range sink ds (i + 1) (r - 1)) := by
  cases hb : buildGelfMessage lib (range i) d.Body d.ContentType with
  | fault f => exact Or.inl ⟨f, deliveryLoop_fault lib range sink d ds i r hb⟩
  | error e => exact Or.inr (Or.inl (deliveryLoop_error lib range sink d ds i r hb))
  | ok gm =>
    cases hs : sink i gm with
    | none =>
      exact Or.inr (Or.inr (Or.inl ⟨gm, rfl, hs,
        deliveryLoop_written lib range sink d ds i r hb hs⟩))
    | some err =>
      by_cases hr : r = 0
      · subst hr
        exact Or.inr (Or.inr (Or.inr (Or.inl ⟨gm, err, rfl, hs,
          deliveryLoop_sink_error_blocked lib range sink d ds i hb hs⟩)))
      · exact Or.inr (Or.inr (Or.inr (Or.inr ⟨gm, err, rfl, hs,
          deliveryLoop_sink_error lib range sink d ds i r hb hs (by omega)⟩)))

theorem deliveryLoop_nil_mem (lib : Lib) (range : Nat → RangeOrder)
    (sink : Nat → Message → Option String) (i r : Nat) (e : Event)
    (h : e ∈ deliveryLoop lib range sink [] i r) :
    e = Event.blocked "done" ∨ e = Event.done "done" := by
  rw [deliveryLoop] at h
  unfold sendDone at h
  split at h
  · exact Or.inl (by simpa using h)
  · exact Or.inr (by simpa using h)

/-- Every indexed event carries the index of a delivery the loop has reached. -/
theorem deliveryLoop_index (lib : Lib) (range : Nat → RangeOrder)
    (sink : Nat → Message → Option String) :
    ∀ (ds : List Delivery) (i0 r : Nat) (e : Event),
      e ∈ deliveryLoop lib range sink ds i0 r → ∀ i, Event.index e = some i → i0 ≤ i := by
  intro ds
  induction ds with
  | nil =>
    intro i0 r e h i hi
    rcases deliveryLoop_nil_mem lib range sink i0 r _ h with e' | e' <;> subst e' <;> cases hi
  | cons d ds ih =>
    intro i0 r e h i hi
    have tail : ∀ r', e ∈ deliveryLoop lib range sink ds (i0 + 1) r' → i0 ≤ i := by
      intro r' h'
      have := ih (i0 + 1) r' e h' i hi
      omega
    have here : ∀ e', e = e' → Event.index e' = some i0 → i0 ≤ i := by
      intro e' heq he'
      subst heq
      rw [he'] at hi
      cases hi
      exact le_refl _
    rcases deliveryLoop_cons_cases lib range sink d ds i0 r with
      ⟨f, hL⟩ | hL | ⟨gm', _, _, hL⟩ | ⟨gm', err', _, _, hL⟩ | ⟨gm', err', _, _, hL⟩
    · rw [hL] at h
      simp only [List.mem_singleton] at h
      subst h
      cases hi
    · rw [hL] at h
      simp only [List.mem_cons] at h
      rcases h with h | h
      · exact here _ h rfl
      · exact tail r h
    · rw [hL] at h
      simp only [List.mem_cons] at h
      rcases h with h | h | h
      · exact here _ h rfl
      · exact here _ h rfl
      · exact tail r h
    · rw [hL] at h
      simp only [List.mem_cons, List.mem_singleton, List.not_mem_nil, or_false] at h
      rcases h with h | h
      · exact here _ h rfl
      · subst h
        cases hi
    · rw [hL] at h
      simp only [List.mem_cons] at h
      rcases h with h | h | h | h
      · exact here _ h rfl
      · subst h
        cases hi
      · exact here _ h rfl
      · exact tail (r - 1) h

/-! ## Which deliveries the loop gets to -/

theorem panicsAt_succ (lib : Lib) (range : Nat → RangeOrder) (d : Delivery)
    (ds : List Delivery) (j : Nat) :
    panicsAt lib range (d :: ds) (j + 1) = panicsAt lib (fun k => range (k + 1)) ds j := by
  simp [panicsAt]

theorem sinkFailsAt_succ (lib : Lib) (range : Nat → RangeOrder)
    (sink : Nat → Message → Option String) (d : Delivery) (ds : List Delivery) (j : Nat) :
    sinkFailsAt lib range sink (d :: ds) (j + 1) =
      sinkFailsAt lib (fun k => range (k + 1)) (fun k => sink (k + 1)) ds j := by
  simp [sinkFailsAt]

theorem Reached_zero (lib : Lib) (range : Nat → RangeOrder)
    (sink : Nat → Message → Option String) (ds : List Delivery) (r : Nat) :
    Reached lib range sink ds r 0 := by
  constructor
  · intro j hj
    omega
  · simp

/-- The loop gets past the first delivery to position `p + 1` when the first
build does not panic and, if its sink write fails, a receiver takes the send
on `done`. -/
theorem Reached_succ (lib : Lib) (range : Nat → RangeOrder)
    (sink : Nat → Message → Option String) (d : Delivery) (ds : List Delivery) (r p : Nat) :
    Reached lib range sink (d :: ds) r (p + 1) ↔
      panicsAt lib range (d :: ds) 0 = false ∧
      (if sinkFailsAt lib range sink (d :: ds) 0 = true then
        0 < r ∧ Reached lib (fun k => range (k + 1)) (fun k => sink (k + 1)) ds (r - 1) p
      else Reached lib (fun k => range (k + 1)) (fun k => sink (k + 1)) ds r p) := by
  have hcount : (List.range (p + 1)).countP (sinkFailsAt lib range sink (d :: ds)) =
      (if sinkFailsAt lib range sink (d :: ds) 0 = true then 1 else 0) +
        (List.range p).countP
          (sinkFailsAt lib (fun k => range (k + 1)) (fun k => sink (k + 1)) ds) := by
    rw [List.range_succ_eq_map, List.countP_cons, List.countP_map]
    have hfun : (sinkFailsAt lib range sink (d :: ds)) ∘ Nat.succ =
        sinkFailsAt lib (fun k => range (k + 1)) (fun k => sink (k + 1)) ds := by
      funext j
      exact sinkFailsAt_succ lib range sink d ds j
    rw [hfun]
    omega
  have hpanic : (∀ j < p + 1, panicsAt lib range (d :: ds) j = false) ↔
      panicsAt lib range (d :: ds) 0 = false ∧
        ∀ j < p, panicsAt lib (fun k => range (k + 1)) ds j = false := by
    constructor
    · intro h
      refine ⟨h 0 (by omega), fun j hj => ?_⟩
      rw [← panicsAt_succ lib range d ds j]
      exact h (j + 1) (by omega)
    · rintro ⟨h0, h⟩ j hj
      cases j with
      | zero => exact h0
      | succ j =>
        rw [panicsAt_succ]
        exact h j (by omega)
  unfold Reached
  rw [hpanic]
  rcases Bool.eq_false_or_eq_true (sinkFailsAt lib range sink (d :: ds) 0) with hf | hf
  · rw [if_pos hf] at hcount
    rw [if_pos hf, hcount]
    constructor
    · rintro ⟨⟨h0, h⟩, hc⟩
      exact ⟨h0, by omega, h, by omega⟩
    · rintro ⟨h0, hr, h, hc⟩
      exact ⟨⟨h0, h⟩, by omega⟩
  · have hne : ¬ sinkFailsAt lib range sink (d :: ds) 0 = true := by
      rw [hf]
      decide
    rw [if_neg hne] at hcount
    rw [if_neg hne, hcount]
    constructor
    · rintro ⟨⟨h0, h⟩, hc⟩
      exact ⟨h0, h, by omega⟩
    · rintro ⟨h0, h, hc⟩
      exact ⟨⟨h0, h⟩, by omega⟩

/-- The head of the loop decides about the first delivery: its record is
written exactly when it is built, with the answer the sink gives. -/
theorem deliveryLoop_write_head (lib : Lib) (range : Nat → RangeOrder)
    (sink : Nat → Message → Option String) (d : Delivery) (ds : List Delivery)
    (i0 r : Nat) (gm : Message) (err : Option String) :
    Event.write i0 gm err ∈ deliveryLoop lib range sink (d :: ds) i0 r ↔
      buildGelfMessage lib (range i0) d.Body d.ContentType = .ok gm ∧ sink i0 gm = err := by
  have hnot : ∀ r', Event.write i0 gm err ∉ deliveryLoop lib range sink ds (i0 + 1) r' := by
    intro r' h
    have := deliveryLoop_index lib range sink ds (i0 + 1) r' _ h i0 rfl
    omega
  cases hb : buildGelfMessage lib (range i0) d.Body d.ContentType with
  | fault f =>
    rw [deliveryLoop_fault lib range sink d ds i0 r hb]
    constructor
    · intro h
      simp only [List.mem_singleton] at h
      cases h
    · rintro ⟨h, _⟩
      cases h
  | error e =>
    rw [deliveryLoop_error lib range sink d ds i0 r hb]
    constructor
    · intro h
      rcases List.mem_cons.1 h with h | h
      · cases h
      · exact absurd h (hnot r)
    · rintro ⟨h, _⟩
      cases h
  | ok g0 =>
    cases hs : sink i0 g0 with
    | none =>
      rw [deliveryLoop_written lib range sink d ds i0 r hb hs]
      constructor
      · intro h
        rcases List.mem_cons.1 h with h | h
        · cases h
          exact ⟨rfl, hs⟩
        · rcases List.mem_cons.1 h with h | h
          · cases h
          · exact absurd h (hnot r)
      · rintro ⟨h, he⟩
        cases h
        rw [hs] at he
        subst he
        exact List.mem_cons_self _ _
    | some e0 =>
      by_cases hr : r = 0
      · subst hr
        rw [deliveryLoop_sink_error_blocked lib range sink d ds i0 hb hs]
        constructor
        · intro h
          rcases List.mem_cons.1 h with h | h
          · cases h
            exact ⟨rfl, hs⟩
          · simp only [List.mem_singleton] at h
            cases h
        · rintro ⟨h, he⟩
          cases h
          rw [hs] at he
          subst he
          exact List.mem_cons_self _ _
      · rw [deliveryLoop_sink_error lib range sink d ds i0 r hb hs (by omega)]
        constructor
        · intro h
          rcases List.mem_cons.1 h with h | h
          · cases h
            exact ⟨rfl, hs⟩
          · rcases List.mem_cons.1 h with h | h
            · cases h
            · rcases List.mem_cons.1 h with h | h
              · cases h
              · exact absurd h (hnot (r - 1))
        · rintro ⟨h, he⟩
          cases h
          rw [hs] at he
          subst he
          exact List.mem_cons_self _ _

/-- A write for a later delivery is a write of the rest of the loop, which
runs when the first build does not panic and, if the first sink write fails, a
receiver takes the send on `done`. -/
theorem deliveryLoop_write_later (lib : Lib) (range : Nat → RangeOrder)
    (sink : Nat → Message → Option String) (d : Delivery) (ds : List Delivery)
    (i0 r i : Nat) (hi : i0 < i) (gm : Message) (err : Option String) :
    Event.write i gm err ∈ deliveryLoop lib range sink (d :: ds) i0 r ↔
      panicsAt lib (fun k => range (i0 + k)) (d :: ds) 0 = false ∧
      (if sinkFailsAt lib (fun k => range (i0 + k)) (fun k => sink (i0 + k)) (d :: ds) 0 = true
        then 0 < r ∧ Event.write i gm err ∈ deliveryLoop lib range sink ds (i0 + 1) (r - 1)
        else Event.write i gm err ∈ deliveryLoop lib range sink ds (i0 + 1) r) := by
  have hne : ∀ g e, Event.write i gm err ≠ Event.write i0 g e := by
    intro g e h
    cases h
    omega
  have hp0 : panicsAt lib (fun k => range (i0 + k)) (d :: ds) 0 =
      (match buildGelfMessage lib (range i0) d.Body d.ContentType with
        | .fault _ => true
        | _ => false) := by
    simp [panicsAt]
  have hs0 : sinkFailsAt lib (fun k => range (i0 + k)) (fun k => sink (i0 + k)) (d :: ds) 0 =
      (match buildGelfMessage lib (range i0) d.Body d.ContentType with
        | .ok g => (sink i0 g).isSome
        | _ => false) := by
    simp [sinkFailsAt]
  rw [hp0, hs0]
  cases hb : buildGelfMessage lib (range i0) d.Body d.ContentType with
  | fault f =>
    rw [deliveryLoop_fault lib range sink d ds i0 r hb]
    constructor
    · intro h
      simp only [List.mem_singleton] at h
      cases h
    · rintro ⟨h, _⟩
      cases h
  | error e =>
    rw [deliveryLoop_error lib range sink d ds i0 r hb]
    simp only [Bool.false_eq_true, if_false, true_and]
    constructor
    · intro h
      rcases List.mem_cons.1 h with h | h
      · cases h
      · exact h
    · intro h
      exact List.mem_cons_of_mem _ h
  | ok g0 =>
    cases hs : sink i0 g0 with
    | none =>
      rw [deliveryLoop_written lib range sink d ds i0 r hb hs]
      simp only [hs, Option.isSome_none, Bool.false_eq_true, if_false, true_and]
      constructor
      · intro h
        rcases List.mem_cons.1 h with h | h
        · exact absurd h (hne _ _)
        · rcases List.mem_cons.1 h with h | h
          · cases h
          · exact h
      · intro h
        exact List.mem_cons_of_mem _ (List.mem_cons_of_mem _ h)
    | some e0 =>
      simp only [hs, Option.isSome_some, if_true, true_and]
      by_cases hr : r = 0
      · subst hr
        rw [deliveryLoop_sink_error_blocked lib range sink d ds i0 hb hs]
        constructor
        · intro h
          rcases List.mem_cons.1 h with h | h
          · exact absurd h (hne _ _)
          · simp only [List.mem_singleton] at h
            cases h
        · rintro ⟨h, _⟩
          omega
      · rw [deliveryLoop_sink_error lib range sink d ds i0 r hb hs (by omega)]
        constructor
        · intro h
          rcases List.mem_cons.1 h with h | h
          · exact absurd h (hne _ _)
          · rcases List.mem_cons.1 h with h | h
            · cases h
            · rcases List.mem_cons.1 h with h | h
              · cases h
              · exact ⟨by omega, h⟩
        · rintro ⟨_, h⟩
          exact List.mem_cons_of_mem _
            (List.mem_cons_of_mem _ (List.mem_cons_of_mem _ h))

/-- The record of the delivery at position `p` is handed to the sink exactly
when the loop gets to that delivery and its record is built; the result in the
trace is the answer of the sink. -/
theorem deliveryLoop_write_iff (lib : Lib) (range : Nat → RangeOrder)
    (sink : Nat → Message → Option String) :
    ∀ (ds : List Delivery) (i0 r p : Nat) (gm : Message) (err : Option String),
      Event.write (i0 + p) gm err ∈ deliveryLoop lib range sink ds i0 r ↔
        Reached lib (fun k => range (i0 + k)) (fun k => sink (i0 + k)) ds r p ∧
        ∃ d, ds[p]? = some d ∧
          buildGelfMessage lib (range (i0 + p)) d.Body d.ContentType = .ok gm ∧
          sink (i0 + p) gm = err := by
  intro ds
  induction ds with
  | nil =>
    intro i0 r p gm err
    constructor
    · intro h
      rcases deliveryLoop_nil_mem lib range sink i0 r _ h with e | e <;> cases e
    · rintro ⟨_, d, hd, _⟩
      simp at hd
  | cons d ds ih =>
    intro i0 r p gm err
    cases p with
    | zero =>
      rw [Nat.add_zero, deliveryLoop_write_head]
      constructor
      · rintro ⟨hb, hs⟩
        exact ⟨Reached_zero _ _ _ _ _, d, by simp, hb, hs⟩
      · rintro ⟨_, d', hd', hb, hs⟩
        simp only [List.getElem?_cons_zero, Option.some.injEq] at hd'
        subst hd'
        exact ⟨hb, hs⟩
    | succ p =>
      have hfr : (fun k => range (i0 + 1 + k)) = (fun k => range (i0 + (k + 1))) := by
        funext k
        rw [show i0 + 1 + k = i0 + (k + 1) by omega]
      have hfs : (fun k => sink (i0 + 1 + k)) = (fun k => sink (i0 + (k + 1))) := by
        funext k
        rw [show i0 + 1 + k = i0 + (k + 1) by omega]
      have hidx : i0 + (p + 1) = i0 + 1 + p := by omega
      have ih' : ∀ r', Event.write (i0 + (p + 1)) gm err ∈
            deliveryLoop lib range sink ds (i0 + 1) r' ↔
          Reached lib (fun k => range (i0 + (k + 1))) (fun k => sink (i0 + (k + 1))) ds r' p ∧
          ∃ d', ds[p]? = some d' ∧
            buildGelfMessage lib (range (i0 + (p + 1))) d'.Body d'.ContentType = .ok gm ∧
            sink (i0 + (p + 1)) gm = err := by
        intro r'
        have := ih (i0 + 1) r' p gm err
        rw [hfr, hfs, ← hidx] at this
        exact this
      rw [deliveryLoop_write_later lib range sink d ds i0 r (i0 + (p + 1)) (by omega),
        Reached_succ]
      simp only [List.getElem?_cons_succ]
      by_cases hf : sinkFailsAt lib (fun k => range (i0 + k)) (fun k => sink (i0 + k))
          (d :: ds) 0 = true
      · rw [if_pos hf, if_pos hf, ih' (r - 1)]
        constructor
        · rintro ⟨h0, hr, hR, hex⟩
          exact ⟨⟨h0, hr, hR⟩, hex⟩
        · rintro ⟨⟨h0, hr, hR⟩, hex⟩
          exact ⟨h0, hr, hR, hex⟩
      · rw [if_neg hf, if_neg hf, ih' r]
        constructor
        · rintro ⟨h0, hR, hex⟩
          exact ⟨⟨h0, hR⟩, hex⟩
        · rintro ⟨⟨h0, hR⟩, hex⟩
          exact ⟨h0, hR, hex⟩

/-- Acks follow successful writes and only those, and an acknowledged
delivery is not rejected. -/
theorem deliveryLoop_ack (lib : Lib) (range : Nat → RangeOrder)
    (sink : Nat → Message → Option String) :
    ∀ (ds : List Delivery) (i0 r i : Nat),
      (∀ m, Event.ack i m ∈ deliveryLoop lib range sink ds i0 r →
        m = false ∧ ∃ gm, Event.write i gm none ∈ deliveryLoop lib range sink ds i0 r) ∧
      (∀ gm, Event.write i gm none ∈ deliveryLoop lib range sink ds i0 r →
        Event.ack i false ∈ deliveryLoop lib range sink ds i0 r) ∧
      (∀ m q, Event.ack i m ∈ deliveryLoop lib range sink ds i0 r →
        Event.reject i q ∈ deliveryLoop lib range sink ds i0 r → False) := by
  intro ds
  induction ds with
  | nil =>
    intro i0 r i
    refine ⟨?_, ?_, ?_⟩
    · intro m h
      rcases deliveryLoop_nil_mem lib range sink i0 r _ h with e | e <;> cases e
    · intro gm h
      rcases deliveryLoop_nil_mem lib range sink i0 r _ h with e | e <;> cases e
    · intro m q h _
      rcases deliveryLoop_nil_mem lib range sink i0 r _ h with e | e <;> cases e
  | cons d ds ih =>
    intro i0 r i
    have later : ∀ r' (e : Event), e ∈ deliveryLoop lib range sink ds (i0 + 1) r' →
        Event.index e = some i → i0 + 1 ≤ i :=
      fun r' e h hi => deliveryLoop_index lib range sink ds (i0 + 1) r' e h i hi
    rcases deliveryLoop_cons_cases lib range sink d ds i0 r with
      ⟨f, hL⟩ | hL | ⟨gm', _, _, hL⟩ | ⟨gm', err', _, _, hL⟩ | ⟨gm', err', _, _, hL⟩
    · rw [hL]
      refine ⟨?_, ?_, ?_⟩
      · intro m h
        simp only [List.mem_singleton] at h
        cases h
      · intro gm h
        simp only [List.mem_singleton] at h
        cases h
      · intro m q h _
        simp only [List.mem_singleton] at h
        cases h
    · obtain ⟨ihA, ihC, ihD⟩ := ih (i0 + 1) r i
      rw [hL]
      refine ⟨?_, ?_, ?_⟩
      · intro m h
        rcases List.mem_cons.1 h with e | h
        · cases e
        · obtain ⟨hm, gm, hw⟩ := ihA m h
          exact ⟨hm, gm, List.mem_cons_of_mem _ hw⟩
      · intro gm h
        rcases List.mem_cons.1 h with e | h
        · cases e
        · exact List.mem_cons_of_mem _ (ihC gm h)
      · intro m q ha hr
        rcases List.mem_cons.1 ha with e | ha
        · cases e
        · rcases List.mem_cons.1 hr with e | hr
          · cases e
            have := later r _ ha rfl
            omega
          · exact ihD m q ha hr
    · obtain ⟨ihA, ihC, ihD⟩ := ih (i0 + 1) r i
      rw [hL]
      refine ⟨?_, ?_, ?_⟩
      · intro m h
        rcases List.mem_cons.1 h with e | h
        · cases e
        · rcases List.mem_cons.1 h with e | h
          · cases e
            exact ⟨rfl, gm', List.mem_cons_self _ _⟩
          · obtain ⟨hm, gm, hw⟩ := ihA m h
            exact ⟨hm, gm, List.mem_cons_of_mem _ (List.mem_cons_of_mem _ hw)⟩
      · intro gm h
        rcases List.mem_cons.1 h with e | h
        · cases e
          exact List.mem_cons_of_mem _ (List.mem_cons_self _ _)
        · rcases List.mem_cons.1 h with e | h
          · cases e
          · exact List.mem_cons_of_mem _ (List.mem_cons_of_mem _ (ihC gm h))
      · intro m q ha hr
        rcases List.mem_cons.1 hr with e | hr
        · cases e
        · rcases List.mem_cons.1 hr with e | hr
          · cases e
          · rcases List.mem_cons.1 ha with e | ha
            · cases e
            · rcases List.mem_cons.1 ha with e | ha
              · cases e
                have := later r _ hr rfl
                omega
              · exact ihD m q ha hr
    · rw [hL]
      refine ⟨?_, ?_, ?_⟩
      · intro m h
        simp only [List.mem_cons, List.mem_singleton, List.not_mem_nil, or_false] at h
        rcases h with e | e <;> cases e
      · intro gm h
        simp only [List.mem_cons, List.mem_singleton, List.not_mem_nil, or_false] at h
        rcases h with e | e <;> cases e
      · intro m q h _
        simp only [List.mem_cons, List.mem_singleton, List.not_mem_nil, or_false] at h
        rcases h with e | e <;> cases e
    · obtain ⟨ihA, ihC, ihD⟩ := ih (i0 + 1) (r - 1) i
      rw [hL]
      refine ⟨?_, ?_, ?_⟩
      · intro m h
        rcases List.mem_cons.1 h with e | h
        · cases e
        · rcases List.mem_cons.1 h with e | h
          · cases e
          · rcases List.mem_cons.1 h with e | h
            · cases e
            · obtain ⟨hm, gm, hw⟩ := ihA m h
              exact ⟨hm, gm, List.mem_cons_of_mem _
                (List.mem_cons_of_mem _ (List.mem_cons_of_mem _ hw))⟩
      · intro gm h
        rcases List.mem_cons.1 h with e | h
        · cases e
        · rcases List.mem_cons.1 h with e | h
          · cases e
          · rcases List.mem_cons.1 h with e | h
            · cases e
            · exact List.mem_cons_of_mem _
                (List.mem_cons_of_mem _ (List.mem_cons_of_mem _ (ihC gm h)))
      · intro m q ha hr
        rcases List.mem_cons.1 ha with e | ha
        · cases e
        · rcases List.mem_cons.1 ha with e | ha
          · cases e
          · rcases List.mem_cons.1 ha with e | ha
            · cases e
            · rcases List.mem_cons.1 hr with e | hr
              · cases e
              · rcases List.mem_cons.1 hr with e | hr
                · cases e
                · rcases List.mem_cons.1 hr with e | hr
                  · cases e
                    have := later (r - 1) _ ha rfl
                    omega
                  · exact ihD m q ha hr

theorem mem_writeIndices {j : Nat} :
    ∀ {T : List Event}, j ∈ writeIndices T → ∃ gm err, Event.write j gm err ∈ T := by
  intro T
  induction T with
  | nil => intro h; simp [writeIndices] at h
  | cons e rest ih =>
    intro h
    cases e with
    | write i gm err =>
      simp only [writeIndices, List.mem_cons] at h
      rcases h with h | h
      · subst h
        exact ⟨gm, err, List.mem_cons_self _ _⟩
      · obtain ⟨gm', err', hw⟩ := ih h
        exact ⟨gm', err', List.mem_cons_of_mem _ hw⟩
    | ack i m =>
      simp only [writeIndices] at h
      obtain ⟨gm', err', hw⟩ := ih h
      exact ⟨gm', err', List.mem_cons_of_mem _ hw⟩
    | reject i q =>
      simp only [writeIndices] at h
      obtain ⟨gm', err', hw⟩ := ih h
      exact ⟨gm', err', List.mem_cons_of_mem _ hw⟩
    | done e =>
      simp only [writeIndices] at h
      obtain ⟨gm', err', hw⟩ := ih h
      exact ⟨gm', err', List.mem_cons_of_mem _ hw⟩
    | blocked e =>
      simp only [writeIndices] at h
      obtain ⟨gm', err', hw⟩ := ih h
      exact ⟨gm', err', List.mem_cons_of_mem _ hw⟩
    | crash f =>
      simp only [writeIndices] at h
      obtain ⟨gm', err', hw⟩ := ih h
      exact ⟨gm', err', List.mem_cons_of_mem _ hw⟩

/-- The sink is called in the order of the deliveries. -/
theorem deliveryLoop_write_order (lib : Lib) (range : Nat → RangeOrder)
    (sink : Nat → Message → Option String) :
    ∀ (ds : List Delivery) (i0 r : Nat),
      List.Pairwise (fun a b => a < b) (writeIndices (deliveryLoop lib range sink ds i0 r)) := by
  intro ds
  induction ds with
  | nil =>
    intro i0 r
    rw [deliveryLoop]
    unfold sendDone
    split <;> simp [writeIndices]
  | cons d ds ih =>
    intro i0 r
    have later : ∀ r', ∀ j ∈ writeIndices (deliveryLoop lib range sink ds (i0 + 1) r'),
        i0 < j := by
      intro r' j hj
      obtain ⟨gm, err, hw⟩ := mem_writeIndices hj
      have := deliveryLoop_index lib range sink ds (i0 + 1) r' _ hw j rfl
      omega
    rcases deliveryLoop_cons_cases lib range sink d ds i0 r with
      ⟨f, hL⟩ | hL | ⟨gm', _, _, hL⟩ | ⟨gm', err', _, _, hL⟩ | ⟨gm', err', _, _, hL⟩
    · rw [hL]
      simp [writeIndices]
    · rw [hL]
      simp only [writeIndices]
      exact ih (i0 + 1) r
    · rw [hL]
      simp only [writeIndices]
      exact List.pairwise_cons.2 ⟨later r, ih (i0 + 1) r⟩
    · rw [hL]
      simp [writeIndices]
    · rw [hL]
      simp only [writeIndices]
      exact List.pairwise_cons.2 ⟨later (r - 1), ih (i0 + 1) (r - 1)⟩

/-! ## Claims -/

/-- C1 (counterexample): four payloads that are valid JSON objects without
reserved keys, sent as application/json. The scenario payload (with key
"level") panics in the assertion to int32; the key "type" is re-filed as
"renamed_type", so Extra differs from the decoded object; a wrong-typed "host"
panics; an object followed by a line feed is packaged as plain text. -/
theorem C1_counterexample :
    (goLib.unmarshal "\x7b\"host\":\"web1\",\"short_message\":\"boot ok\",\"level\":6\x7d" =
        .ok (.obj [("level", .num ⟨0x4018000000000000⟩), ("short_message", .str "boot ok"),
          ("host", .str "web1")]) ∧
      buildGelfMessage goLib rangeStored
        "\x7b\"host\":\"web1\",\"short_message\":\"boot ok\",\"level\":6\x7d" "application/json" =
        .fault (.interfaceConversion "float64" "int32")) ∧
    (goLib.unmarshal "\x7b\"type\":\"x\"\x7d" = .ok (.obj [("type", .str "x")]) ∧
      gelfReservedField "type" = false ∧
      buildGelfMessage goLib rangeStored "\x7b\"type\":\"x\"\x7d" "application/json" =
        .ok { Version := "1.1", Host := "unknown_amqp", Short := "", TimeUnix := Float64.zero,
              Level := 6, Extra := [("renamed_type", .str "x")] }) ∧
    (goLib.unmarshal "\x7b\"host\":5\x7d" = .ok (.obj [("host", .num ⟨0x4014000000000000⟩)]) ∧
      buildGelfMessage goLib rangeStored "\x7b\"host\":5\x7d" "application/json" =
        .fault (.interfaceConversion "float64" "string")) ∧
    (goLib.unmarshal "\x7b\"a\":\"b\"\x7d\n" = .ok (.obj [("a", .str "b")]) ∧
      buildGelfMessage goLib rangeStored "\x7b\"a\":\"b\"\x7d\n" "application/json" =
        .ok { Version := "1.1", Host := "unknown_amqp", Short := "\x7b\"a\":\"b\"\x7d\n",
              TimeUnix := Float64.zero, Level := 6, Extra := [] }) := by
  decide!

/-- C1 (amended): for a JSON content type and a payload that starts with an
opening brace, ends with a closing brace and decodes to an object `m` in which
no key is a reserved name or a reserved name without its leading underscore,
there is no "level" key, and "host", "short_message" and "version" hold strings
when present: `buildGelfMessage` succeeds, Extra is `m`, Version, Host and
Short are the values of "version", "host" and "short_message" or the defaults
"1.1", "unknown_amqp" and "" when absent, TimeUnix is the "timestamp" number
(the parsed float for a string, 0 when absent), and Level is 6. -/
theorem C1_json_object_record (lib : Lib) (rng : RangeOrder) (p ct : String) (m : JMap)
    (hct : ct = "application/json" ∨ ct = "text/json")
    (hbraced : Braced p)
    (hdec : lib.unmarshal p = .ok (.obj m))
    (hres : ∀ k ∈ JMap.keys m,
      gelfReservedField k = false ∧ gelfReservedField ("_" ++ k) = false)
    (hlevel : JMap.lookup "level" m = none)
    (hhost : StringIfPresent "host" m)
    (hshort : StringIfPresent "short_message" m)
    (hversion : StringIfPresent "version" m) :
    ∃ gm, buildGelfMessage lib rng p ct = .ok gm ∧ gm.Extra = m ∧
      (∀ s, JMap.lookup "version" m = some (.str s) → gm.Version = s) ∧
      (JMap.lookup "version" m = none → gm.Version = "1.1") ∧
      (∀ s, JMap.lookup "host" m = some (.str s) → gm.Host = s) ∧
      (JMap.lookup "host" m = none → gm.Host = "unknown_amqp") ∧
      (∀ s, JMap.lookup "short_message" m = some (.str s) → gm.Short = s) ∧
      (JMap.lookup "short_message" m = none → gm.Short = "") ∧
      (∀ f, JMap.lookup "timestamp" m = some (.num f) → gm.TimeUnix = f) ∧
      (∀ s, JMap.lookup "timestamp" m = some (.str s) → gm.TimeUnix = lib.parseFloat s) ∧
      (JMap.lookup "timestamp" m = none → gm.TimeUnix = Float64.zero) ∧
      gm.Level = 6 := by
  have hsame : renameReserved (rng.keysOf m) m = m := by
    apply renameReserved_eq_self
    intro k hk
    obtain ⟨h1, h2⟩ := hres k hk
    simp [renameTarget, h1, h2]
  refine ⟨{ Version := stringOr "1.1" (JMap.lookup "version" m),
            Host := stringOr "unknown_amqp" (JMap.lookup "host" m),
            Short := stringOr "" (JMap.lookup "short_message" m),
            TimeUnix := timestampField lib m, Level := 6, Extra := m }, ?_, rfl, ?_⟩
  · rw [buildGelfMessage_of_braced lib rng p ct hct hbraced,
      buildGelfMessage_json_obj rng hdec, hsame]
    unfold extractFields
    rw [stringField_of_typed "unknown_amqp" hhost, stringField_of_typed "" hshort,
      stringField_of_typed "1.1" hversion, levelField_of_absent hlevel]
    rfl
  · refine ⟨?_, ?_, ?_, ?_, ?_, ?_, ?_, ?_, ?_, rfl⟩
    · intro s hs; simp only [hs, stringOr]
    · intro hs; simp only [hs, stringOr]
    · intro s hs; simp only [hs, stringOr]
    · intro hs; simp only [hs, stringOr]
    · intro s hs; simp only [hs, stringOr]
    · intro hs; simp only [hs, stringOr]
    · intro f hf; simp only [timestampField, hf]
    · intro s hs; simp only [timestampField, hs]
    · intro hs; simp only [timestampField, hs]

/-- C1 (witness): the scenario payload without its "level" key. -/
theorem C1_json_object_record_witness :
    ∃ gm, buildGelfMessage goLib rangeStored
        "\x7b\"host\":\"web1\",\"short_message\":\"boot ok\"\x7d" "application/json" = .ok gm ∧
      gm.Extra = [("short_message", .str "boot ok"), ("host", .str "web1")] ∧
      gm.Version = "1.1" ∧ gm.Host = "web1" ∧ gm.Short = "boot ok" ∧
      gm.TimeUnix = Float64.zero ∧ gm.Level = 6 := by
  obtain ⟨gm, hgm, hextra, _, hv, hh, _, hs, _, _, _, ht, hl⟩ :=
    C1_json_object_record goLib rangeStored
      "\x7b\"host\":\"web1\",\"short_message\":\"boot ok\"\x7d" "application/json"
      [("short_message", .str "boot ok"), ("host", .str "web1")]
      (by decide) (by decide!) (by decide!) (by decide!) (by decide!) (by decide!)
      (by decide!) (by decide!)
  exact ⟨gm, hgm, hextra, hv (by decide!), hh "web1" (by decide!), hs "boot ok" (by decide!),
    ht (by decide!), hl⟩

/-- C2 (counterexample): the object holds both "_id" and "id"; in a run that
visits "_id" first, "renamed_id" ends up bound to the value of "id", not to the
value "_id" had. -/
theorem C2_counterexample :
    goLib.unmarshal "\x7b\"_id\":\"a\",\"id\":\"b\"\x7d" =
      .ok (.obj [("id", .str "b"), ("_id", .str "a")]) ∧
    gelfReservedField "_id" = true ∧
    buildGelfMessage_json goLib rangeReversed "\x7b\"_id\":\"a\",\"id\":\"b\"\x7d" =
      .ok { Version := "1.1", Host := "unknown_amqp", Short := "", TimeUnix := Float64.zero,
            Level := 6, Extra := [("renamed_id", .str "b")] } := by
  decide!

/-- C2 (amended): for a reserved key `k` of a decoded object that does not
also hold `k` without its leading underscore, a successful
`buildGelfMessage_json` leaves "renamed" + `k` bound to the value `k` had, and
`k` is not a key of Extra. -/
theorem C2_reserved_key_renamed (lib : Lib) (rng : RangeOrder) (message k : String)
    (v : JVal) (m : JMap) (gm : Message)
    (hk : gelfReservedField k = true)
    (hdec : lib.unmarshal message = .ok (.obj m))
    (hv : JMap.lookup k m = some v)
    (hbare : ∀ b, k = "_" ++ b → b ∉ JMap.keys m)
    (hok : buildGelfMessage_json lib rng message = .ok gm) :
    JMap.lookup ("renamed" ++ k) gm.Extra = some v ∧ k ∉ JMap.keys gm.Extra := by
  obtain ⟨m', hm', hextra⟩ := buildGelfMessage_json_ok hok
  rw [hdec] at hm'
  cases hm'
  have ht : renameTarget k = some ("renamed" ++ k) := renameTarget_reserved hk
  rw [hextra]
  constructor
  · apply lookup_renameReserved_target ht _ _ hv
      (rng.complete m k (JMap.mem_keys_of_lookup hv))
    intro r _ hr hne
    rcases renameTarget_collide hr ht with e | e | e
    · exact absurd e hne
    · rw [e, renameTarget_underscore_reserved hk] at hr
      cases hr
    · exact JMap.lookup_eq_none_of_not_mem (hbare r e)
  · rw [JMap.mem_keys_iff, lookup_renameReserved_renamable rng m ht]
    simp

/-- C2 (witness): the reserved key "_type" next to an ordinary key. -/
theorem C2_reserved_key_renamed_witness :
    ∃ gm, buildGelfMessage_json goLib rangeStored "\x7b\"_type\":\"log\",\"n\":\"1\"\x7d" =
        .ok gm ∧
      JMap.lookup ("renamed" ++ "_type") gm.Extra = some (.str "log") ∧
      "_type" ∉ JMap.keys gm.Extra :=
  ⟨{ Version := "1.1", Host := "unknown_amqp", Short := "", TimeUnix := Float64.zero,
     Level := 6, Extra := [("renamed_type", .str "log"), ("n", .str "1")] },
    by decide!,
    C2_reserved_key_renamed goLib rangeStored "\x7b\"_type\":\"log\",\"n\":\"1\"\x7d" "_type"
      (.str "log") [("n", .str "1"), ("_type", .str "log")] _
      (by decide) (by decide!) (by decide!)
      (by
        intro b hb
        have hb' : b = "type" := by
          have := congrArg String.data hb
          simp at this
          exact String.ext (by simpa using this.symm)
        subst hb'
        decide)
      (by decide!)⟩

/-- C3: with a JSON content type the empty payload makes `buildGelfMessage`
panic (index 0 of an empty slice), although it does not start with an opening
brace; for every other payload that is not wrapped in braces, and for every
payload with another content type, the build succeeds with the plain-text
record: Short the payload, Host "unknown_amqp", TimeUnix 0, Level 6, Version
"1.1", Extra empty. -/
theorem C3_empty_payload_faults :
    (∀ (lib : Lib) (rng : RangeOrder) (ctype : String),
      (ctype = "application/json" ∨ ctype = "text/json") →
      ¬ Braced "" ∧
      buildGelfMessage lib rng "" ctype = .fault (.indexOutOfRange 0 0)) ∧
    (∀ (lib : Lib) (rng : RangeOrder) (message ctype : String),
      (¬ (ctype = "application/json" ∨ ctype = "text/json") ∨
        (message ≠ "" ∧ ¬ Braced message)) →
      buildGelfMessage lib rng message ctype =
        .ok { Version := "1.1", Host := "unknown_amqp", Short := message,
              TimeUnix := Float64.zero, Level := 6, Extra := [] }) := by
  refine ⟨fun lib rng ctype h => ⟨by decide, buildGelfMessage_of_empty lib rng ctype h⟩, ?_⟩
  intro lib rng message ctype h
  rcases h with h | ⟨hne, hb⟩
  · rw [buildGelfMessage_of_other_type lib rng message ctype h]
    rfl
  · rw [buildGelfMessage_of_not_braced lib rng message ctype hne hb]
    rfl

/-- C4 (counterexample): a malformed JSON body that does not end with a
closing brace, delivered as application/json, is not a parse error: it is
packaged as plain text, written to the sink and acknowledged. -/
theorem C4_counterexample :
    goLib.unmarshal "\x7b\"a\":" = .error "unexpected end of JSON input" ∧
    buildGelfMessage goLib rangeStored "\x7b\"a\":" "application/json" =
      .ok { Version := "1.1", Host := "unknown_amqp", Short := "\x7b\"a\":",
            TimeUnix := Float64.zero, Level := 6, Extra := [] } ∧
    writeLogsToGelf goLib (fun _ => rangeStored) none (fun _ _ => none)
        [{ Body := "\x7b\"a\":", ContentType := "application/json" }] 1 =
      [Event.write 0 { Version := "1.1", Host := "unknown_amqp", Short := "\x7b\"a\":",
                       TimeUnix := Float64.zero, Level := 6, Extra := [] } none,
        Event.ack 0 false, Event.done "done"] := by
  decide!

/-- C4 (amended): for a body that starts with an opening brace, ends with a
closing brace and is malformed JSON, delivered with a JSON content type,
`buildGelfMessage` returns the decoder's error, and the loop rejects that
delivery with requeue=false, writes nothing to the sink for it, and goes on
with the next delivery. -/
theorem C4_malformed_json_rejected (lib : Lib) (range : Nat → RangeOrder)
    (sink : Nat → Message → Option String) (d : Delivery) (ds : List Delivery)
    (i r : Nat) (e : String)
    (hct : d.ContentType = "application/json" ∨ d.ContentType = "text/json")
    (hbraced : Braced d.Body)
    (hbad : lib.unmarshal d.Body = .error e) :
    buildGelfMessage lib (range i) d.Body d.ContentType = .error e ∧
    deliveryLoop lib range sink (d :: ds) i r =
      Event.reject i false :: deliveryLoop lib range sink ds (i + 1) r := by
  have hb : buildGelfMessage lib (range i) d.Body d.ContentType = .error e := by
    rw [buildGelfMessage_of_braced lib (range i) d.Body d.ContentType hct hbraced]
    exact buildGelfMessage_json_error (range i) hbad
  exact ⟨hb, deliveryLoop_error lib range sink d ds i r hb⟩

/-- C4 (witness): a braced body with a missing value, followed by a text
delivery. -/
theorem C4_malformed_json_rejected_witness :
    buildGelfMessage goLib rangeStored "\x7b\"a\":\x7d" "text/json" =
      .error "invalid character looking for beginning of value" ∧
    deliveryLoop goLib (fun _ => rangeStored) (fun _ _ => none)
        ({ Body := "\x7b\"a\":\x7d", ContentType := "text/json" } ::
          [{ Body := "hello", ContentType := "text/plain" }]) 0 1 =
      Event.reject 0 false ::
        deliveryLoop goLib (fun _ => rangeStored) (fun _ _ => none)
          [{ Body := "hello", ContentType := "text/plain" }] (0 + 1) 1 :=
  C4_malformed_json_rejected goLib (fun _ => rangeStored) (fun _ _ => none)
    { Body := "\x7b\"a\":\x7d", ContentType := "text/json" }
    [{ Body := "hello", ContentType := "text/plain" }] 0 1
    "invalid character looking for beginning of value" (by decide) (by decide!) (by decide!)

/-- C5 (counterexample): the sink fails on the first of two deliveries; the
loop signals `done`, rejects the first and then builds, writes and
acknowledges the second. With a sink that fails on both, the second send on
`done` finds no receiver and the second delivery is never rejected. -/
theorem C5_counterexample :
    writeLogsToGelf goLib (fun _ => rangeStored) none
        (fun i _ => if i = 0 then some "boom" else none)
        [{ Body := "a", ContentType := "text/plain" },
          { Body := "b", ContentType := "text/plain" }] 1 =
      [Event.write 0 { Version := "1.1", Host := "unknown_amqp", Short := "a",
                       TimeUnix := Float64.zero, Level := 6, Extra := [] } (some "boom"),
        Event.done "Cannot send gelf msg: boom",
        Event.reject 0 false,
        Event.write 1 { Version := "1.1", Host := "unknown_amqp", Short := "b",
                        TimeUnix := Float64.zero, Level := 6, Extra := [] } none,
        Event.ack 1 false,
        Event.blocked "done"] ∧
    writeLogsToGelf goLib (fun _ => rangeStored) none (fun _ _ => some "boom")
        [{ Body := "a", ContentType := "text/plain" },
          { Body := "b", ContentType := "text/plain" }] 1 =
      [Event.write 0 { Version := "1.1", Host := "unknown_amqp", Short := "a",
                       TimeUnix := Float64.zero, Level := 6, Extra := [] } (some "boom"),
        Event.done "Cannot send gelf msg: boom",
        Event.reject 0 false,
        Event.write 1 { Version := "1.1", Host := "unknown_amqp", Short := "b",
                        TimeUnix := Float64.zero, Level := 6, Extra := [] } (some "boom"),
        Event.blocked "Cannot send gelf msg: boom"] := by
  decide!

/-- C5 (amended): when the sink write fails on a delivery while a receiver is
waiting on `done`, the loop hands "Cannot send gelf msg: " followed by the
sink error to `done` (which `main` passes on to `shutdown` with a line feed
appended), then rejects that delivery without requeue, and then goes on with
the deliveries after it. -/
theorem C5_sink_failure_signalled (lib : Lib) (range : Nat → RangeOrder)
    (sink : Nat → Message → Option String) (d : Delivery) (ds : List Delivery)
    (i r : Nat) (gm : Message) (err : String)
    (hbuild : buildGelfMessage lib (range i) d.Body d.ContentType = .ok gm)
    (hsink : sink i gm = some err)
    (hreceiver : 0 < r) :
    deliveryLoop lib range sink (d :: ds) i r =
      Event.write i gm (some err) :: Event.done ("Cannot send gelf msg: " ++ err) ::
        Event.reject i false :: deliveryLoop lib range sink ds (i + 1) (r - 1) ∧
    shutdownReason ("Cannot send gelf msg: " ++ err) =
      "Cannot send gelf msg: " ++ err ++ "\n" :=
  ⟨deliveryLoop_sink_error lib range sink d ds i r hbuild hsink hreceiver, rfl⟩

/-- C5 (witness): a text delivery on which the sink reports "boom". -/
theorem C5_sink_failure_signalled_witness :
    deliveryLoop goLib (fun _ => rangeStored) (fun _ _ => some "boom")
        ({ Body := "a", ContentType := "text/plain" } :: []) 0 1 =
      Event.write 0 { Version := "1.1", Host := "unknown_amqp", Short := "a",
                      TimeUnix := Float64.zero, Level := 6, Extra := [] } (some "boom") ::
        Event.done ("Cannot send gelf msg: " ++ "boom") :: Event.reject 0 false ::
        deliveryLoop goLib (fun _ => rangeStored) (fun _ _ => some "boom") [] (0 + 1) (1 - 1) ∧
    shutdownReason ("Cannot send gelf msg: " ++ "boom") =
      "Cannot send gelf msg: " ++ "boom" ++ "\n" :=
  C5_sink_failure_signalled goLib (fun _ => rangeStored) (fun _ _ => some "boom")
    { Body := "a", ContentType := "text/plain" } [] 0 1 _ "boom" (by decide!) rfl (by decide)

/-- C6: in every run of `writeLogsToGelf` (every delivery list, sink behaviour,
key order, and number of receivers on `done`), the delivery at position `i` is
acknowledged exactly when the loop gets to it (`Reached`), its record is built
and the sink accepts the write of that record; every ack has multiple=false;
the record of a delivery is handed to the sink exactly when the loop gets to
it and the record is built, and the sink is called in the order of the
deliveries; no delivery is both acknowledged and rejected. When the writer
cannot be created nothing is written or acknowledged. -/
theorem C6_ack_iff_written (lib : Lib) (range : Nat → RangeOrder)
    (newWriter : Option String) (sink : Nat → Message → Option String)
    (ds : List Delivery) (r : Nat) :
    (∀ i multiple,
      Event.ack i multiple ∈ writeLogsToGelf lib range newWriter sink ds r ↔
        multiple = false ∧ newWriter = none ∧ Reached lib range sink ds r i ∧
          ∃ d gm, ds[i]? = some d ∧
            buildGelfMessage lib (range i) d.Body d.ContentType = .ok gm ∧
            sink i gm = none) ∧
    (∀ i gm err,
      Event.write i gm err ∈ writeLogsToGelf lib range newWriter sink ds r ↔
        newWriter = none ∧ Reached lib range sink ds r i ∧
          ∃ d, ds[i]? = some d ∧
            buildGelfMessage lib (range i) d.Body d.ContentType = .ok gm ∧
            sink i gm = err) ∧
    (∀ i multiple requeue,
      Event.ack i multiple ∈ writeLogsToGelf lib range newWriter sink ds r →
        Event.reject i requeue ∉ writeLogsToGelf lib range newWriter sink ds r) ∧
    List.Pairwise (fun a b => a < b)
      (writeIndices (writeLogsToGelf lib range newWriter sink ds r)) := by
  cases newWriter with
  | some err =>
    have hmem : ∀ e, e ∈ writeLogsToGelf lib range (some err) sink ds r →
        e = Event.blocked ("Cannot create gelf writer: " ++ err) ∨
          e = Event.done ("Cannot create gelf writer: " ++ err) := by
      intro e h
      have h' : e ∈ sendDone r ("Cannot create gelf writer: " ++ err) := h
      unfold sendDone at h'
      split at h'
      · exact Or.inl (by simpa using h')
      · exact Or.inr (by simpa using h')
    refine ⟨?_, ?_, ?_, ?_⟩
    · intro i multiple
      constructor
      · intro h
        rcases hmem _ h with e | e <;> cases e
      · rintro ⟨_, h, _⟩
        cases h
    · intro i gm e
      constructor
      · intro h
        rcases hmem _ h with e | e <;> cases e
      · rintro ⟨h, _⟩
        cases h
    · intro i multiple requeue h
      rcases hmem _ h with e | e <;> cases e
    · show List.Pairwise _ (writeIndices (sendDone r ("Cannot create gelf writer: " ++ err)))
      unfold sendDone
      split <;> simp [writeIndices]
  | none =>
    have hwrite : ∀ i gm err,
        Event.write i gm err ∈ deliveryLoop lib range sink ds 0 r ↔
          Reached lib range sink ds r i ∧
            ∃ d, ds[i]? = some d ∧
              buildGelfMessage lib (range i) d.Body d.ContentType = .ok gm ∧
              sink i gm = err := by
      intro i gm err
      have h := deliveryLoop_write_iff lib range sink ds 0 r i gm err
      have hfr : (fun k => range (0 + k)) = range := by
        funext k
        rw [Nat.zero_add]
      have hfs : (fun k => sink (0 + k)) = sink := by
        funext k
        rw [Nat.zero_add]
      rw [hfr, hfs, Nat.zero_add] at h
      exact h
    show (∀ i multiple, Event.ack i multiple ∈ deliveryLoop lib range sink ds 0 r ↔ _) ∧
      (∀ i gm err, Event.write i gm err ∈ deliveryLoop lib range sink ds 0 r ↔ _) ∧
      (∀ i multiple requeue, Event.ack i multiple ∈ deliveryLoop lib range sink ds 0 r →
        Event.reject i requeue ∉ deliveryLoop lib range sink ds 0 r) ∧
      List.Pairwise _ (writeIndices (deliveryLoop lib range sink ds 0 r))
    refine ⟨?_, ?_, ?_, deliveryLoop_write_order lib range sink ds 0 r⟩
    · intro i multiple
      obtain ⟨hA, hC, _⟩ := deliveryLoop_ack lib range sink ds 0 r i
      constructor
      · intro h
        obtain ⟨hm, gm, hw⟩ := hA multiple h
        obtain ⟨hR, d, hd, hb, hs⟩ := (hwrite i gm none).1 hw
        exact ⟨hm, rfl, hR, d, gm, hd, hb, hs⟩
      · rintro ⟨hm, _, hR, d, gm, hd, hb, hs⟩
        subst hm
        exact hC gm ((hwrite i gm none).2 ⟨hR, d, hd, hb, hs⟩)
    · intro i gm err
      constructor
      · intro h
        exact ⟨rfl, (hwrite i gm err).1 h⟩
      · rintro ⟨_, h⟩
        exact (hwrite i gm err).2 h
    · intro i multiple requeue ha hr
      exact (deliveryLoop_ack lib range sink ds 0 r i).2.2 multiple requeue ha hr

/-- C6 (witness): a text delivery that the sink accepts is acknowledged; a
delivery that comes after one whose build panics (an empty body sent as
application/json) is not. -/
theorem C6_ack_iff_written_witness :
    Event.ack 0 false ∈ writeLogsToGelf goLib (fun _ => rangeStored) none (fun _ _ => none)
        [{ Body := "a", ContentType := "text/plain" }] 1 ∧
    Event.ack 1 false ∉ writeLogsToGelf goLib (fun _ => rangeStored) none (fun _ _ => none)
        [{ Body := "", ContentType := "application/json" },
          { Body := "a", ContentType := "text/plain" }] 1 :=
  ⟨((C6_ack_iff_written goLib (fun _ => rangeStored) none (fun _ _ => none)
      [{ Body := "a", ContentType := "text/plain" }] 1).1 0 false).2
      ⟨rfl, rfl, by decide!, { Body := "a", ContentType := "text/plain" },
        { Version := "1.1", Host := "unknown_amqp", Short := "a", TimeUnix := Float64.zero,
          Level := 6, Extra := [] }, by decide!, by decide!, rfl⟩,
    fun h =>
      absurd (((C6_ack_iff_written goLib (fun _ => rangeStored) none (fun _ _ => none)
        [{ Body := "", ContentType := "application/json" },
          { Body := "a", ContentType := "text/plain" }] 1).1 1 false).1 h).2.2.1
        (by decide!)⟩

/-- C7: when `buildGelfMessage` succeeds, no key of Extra is one of the
reserved names. -/
theorem C7_extra_has_no_reserved_key (lib : Lib) (rng : RangeOrder) (p ct : String)
    (gm : Message) (h : buildGelfMessage lib rng p ct = .ok gm) :
    ∀ k ∈ JMap.keys gm.Extra,
      k ∉ ["_id", "_ttl", "_source", "_all", "_index", "_type", "_score"] := by
  intro k hk hres
  rcases buildGelfMessage_ok h with htext | ⟨_, _, hjson⟩
  · unfold buildGelfMessage_text at htext
    cases htext
    simp [JMap.keys] at hk
  · obtain ⟨m, _, hextra⟩ := buildGelfMessage_json_ok hjson
    have ht : renameTarget k = some ("renamed" ++ k) :=
      renameTarget_reserved (by simpa [gelfReservedField] using hres)
    rw [hextra, JMap.mem_keys_iff, lookup_renameReserved_renamable rng m ht] at hk
    exact hk rfl

/-- C7 (witness): an object with two reserved keys and an ordinary one. -/
theorem C7_extra_has_no_reserved_key_witness :
    ∃ gm, buildGelfMessage goLib rangeReversed
        "\x7b\"_id\":\"a\",\"x\":\"y\",\"_score\":\"s\"\x7d" "application/json" = .ok gm ∧
      JMap.keys gm.Extra = ["renamed_score", "renamed_id", "x"] ∧
      ∀ k ∈ JMap.keys gm.Extra,
        k ∉ ["_id", "_ttl", "_source", "_all", "_index", "_type", "_score"] :=
  ⟨{ Version := "1.1", Host := "unknown_amqp", Short := "", TimeUnix := Float64.zero,
     Level := 6,
     Extra := [("renamed_score", .str "s"), ("renamed_id", .str "a"), ("x", .str "y")] },
    by decide!, by decide!,
    C7_extra_has_no_reserved_key goLib rangeReversed
      "\x7b\"_id\":\"a\",\"x\":\"y\",\"_score\":\"s\"\x7d" "application/json" _ (by decide!)⟩

/-- C8 (counterexample): the object holds "_id" and already a key
"renamed_id"; the rename overwrites the latter, so the pair
("renamed_id", "b") is lost and Extra has one entry for the two of the
object. The same happens to an object that holds "_id" and "id": both are
filed under "renamed_id" and one of the two values is lost. -/
theorem C8_counterexample :
    (goLib.unmarshal "\x7b\"_id\":\"a\",\"renamed_id\":\"b\"\x7d" =
        .ok (.obj [("renamed_id", .str "b"), ("_id", .str "a")]) ∧
      JMap.len [("renamed_id", .str "b"), ("_id", .str "a")] = 2 ∧
      buildGelfMessage_json goLib rangeStored "\x7b\"_id\":\"a\",\"renamed_id\":\"b\"\x7d" =
        .ok { Version := "1.1", Host := "unknown_amqp", Short := "",
              TimeUnix := Float64.zero, Level := 6,
              Extra := [("renamed_id", .str "a")] } ∧
      buildGelfMessage_json goLib rangeReversed "\x7b\"_id\":\"a\",\"renamed_id\":\"b\"\x7d" =
        .ok { Version := "1.1", Host := "unknown_amqp", Short := "",
              TimeUnix := Float64.zero, Level := 6,
              Extra := [("renamed_id", .str "a")] } ∧
      JMap.len [("renamed_id", .str "a")] = 1) ∧
    (goLib.unmarshal "\x7b\"_id\":\"a\",\"id\":\"b\"\x7d" =
        .ok (.obj [("id", .str "b"), ("_id", .str "a")]) ∧
      JMap.len [("id", .str "b"), ("_id", .str "a")] = 2 ∧
      buildGelfMessage_json goLib rangeStored "\x7b\"_id\":\"a\",\"id\":\"b\"\x7d" =
        .ok { Version := "1.1", Host := "unknown_amqp", Short := "",
              TimeUnix := Float64.zero, Level := 6,
              Extra := [("renamed_id", .str "a")] }) := by
  decide!

/-- C8 (amended): when the decoded object holds no key that is the renamed
form of one of its keys, and does not hold both a reserved key and that key
without its leading underscore, a successful `buildGelfMessage_json` keeps
every key/value pair of the object (under "renamed" + k for a reserved k,
under "renamed_" + k for a reserved name without its underscore, under k
otherwise), and Extra has as many entries as the object. -/
theorem C8_rename_keeps_entries (lib : Lib) (rng : RangeOrder) (message : String)
    (m : JMap) (gm : Message)
    (hdec : lib.unmarshal message = .ok (.obj m))
    (hfree1 : ∀ k ∈ JMap.keys m, gelfReservedField k = true →
      "renamed" ++ k ∉ JMap.keys m)
    (hfree2 : ∀ k ∈ JMap.keys m, gelfReservedField ("_" ++ k) = true →
      "renamed_" ++ k ∉ JMap.keys m)
    (hpair : ∀ k ∈ JMap.keys m, gelfReservedField ("_" ++ k) = true →
      "_" ++ k ∉ JMap.keys m)
    (hok : buildGelfMessage_json lib rng message = .ok gm) :
    (∀ k v, JMap.lookup k m = some v →
      (gelfReservedField k = true → JMap.lookup ("renamed" ++ k) gm.Extra = some v) ∧
      (gelfReservedField k = false → gelfReservedField ("_" ++ k) = true →
        JMap.lookup ("renamed_" ++ k) gm.Extra = some v) ∧
      (gelfReservedField k = false → gelfReservedField ("_" ++ k) = false →
        JMap.lookup k gm.Extra = some v)) ∧
    JMap.len gm.Extra = JMap.len m := by
  obtain ⟨m', hm', hextra⟩ := buildGelfMessage_json_ok hok
  rw [hdec] at hm'
  cases hm'
  have hfree := renameTarget_free hfree1 hfree2
  have hinj := renameTarget_injOn hpair
  rw [hextra]
  refine ⟨?_, renameReserved_len _ m hfree hinj⟩
  intro k v hv
  have hkm : k ∈ JMap.keys m := JMap.mem_keys_of_lookup hv
  have hmoved : ∀ t, renameTarget k = some t →
      JMap.lookup t (renameReserved (rng.keysOf m) m) = some v := by
    intro t ht
    apply lookup_renameReserved_target ht _ _ hv (rng.complete m k hkm)
    intro r _ hr hne
    by_contra hl
    exact hne (hinj r k t ((JMap.mem_keys_iff r m).2 hl) hkm hr ht)
  refine ⟨?_, ?_, ?_⟩
  · intro h1
    exact hmoved _ (by simp [renameTarget, h1])
  · intro h1 h2
    exact hmoved _ (by simp [renameTarget, h1, h2])
  · intro h1 h2
    have hk : renameTarget k = none := by simp [renameTarget, h1, h2]
    rw [lookup_renameReserved_untouched hk, hv]
    intro s _ hs
    by_contra hl
    exact hfree s k ((JMap.mem_keys_iff s m).2 hl) hs hkm

/-- C8 (witness): a reserved key, a reserved name without its underscore and
an ordinary key. -/
theorem C8_rename_keeps_entries_witness :
    ∃ gm, buildGelfMessage_json goLib rangeStored
        "\x7b\"_id\":\"a\",\"ttl\":\"t\",\"host\":\"h\"\x7d" = .ok gm ∧
      gm.Extra = [("renamed_id", .str "a"), ("renamed_ttl", .str "t"), ("host", .str "h")] ∧
      (∀ k v, JMap.lookup k [("host", .str "h"), ("ttl", .str "t"), ("_id", .str "a")] = some v →
        (gelfReservedField k = true → JMap.lookup ("renamed" ++ k) gm.Extra = some v) ∧
        (gelfReservedField k = false → gelfReservedField ("_" ++ k) = true →
          JMap.lookup ("renamed_" ++ k) gm.Extra = some v) ∧
        (gelfReservedField k = false → gelfReservedField ("_" ++ k) = false →
          JMap.lookup k gm.Extra = some v)) ∧
      JMap.len gm.Extra = JMap.len [("host", .str "h"), ("ttl", .str "t"), ("_id", .str "a")] :=
  ⟨{ Version := "1.1", Host := "h", Short := "", TimeUnix := Float64.zero, Level := 6,
     Extra := [("renamed_id", .str "a"), ("renamed_ttl", .str "t"), ("host", .str "h")] },
    by decide!, rfl,
    C8_rename_keeps_entries goLib rangeStored
      "\x7b\"_id\":\"a\",\"ttl\":\"t\",\"host\":\"h\"\x7d"
      [("host", .str "h"), ("ttl", .str "t"), ("_id", .str "a")] _
      (by decide!) (by decide!) (by decide!) (by decide!) (by decide!)⟩

/-- C9 (counterexample): the object holds "_id" and "id"; the run that visits
"id" first and the run that visits "_id" first return different Extra maps
for the same payload and content type. -/
theorem C9_counterexample :
    buildGelfMessage goLib rangeStored "\x7b\"_id\":\"a\",\"id\":\"b\"\x7d" "application/json" =
      .ok { Version := "1.1", Host := "unknown_amqp", Short := "", TimeUnix := Float64.zero,
            Level := 6, Extra := [("renamed_id", .str "a")] } ∧
    buildGelfMessage goLib rangeReversed "\x7b\"_id\":\"a\",\"id\":\"b\"\x7d" "application/json" =
      .ok { Version := "1.1", Host := "unknown_amqp", Short := "", TimeUnix := Float64.zero,
            Level := 6, Extra := [("renamed_id", .str "b")] } := by
  decide!

/-- C9 (amended): unless the decoded object holds both a reserved key and that
key without its leading underscore, two calls of `buildGelfMessage` on the same
payload and content type end the same way whatever the orders in which their
renaming loops visit the keys: the same error, the same panic, or records with
the same Version, Host, Short, TimeUnix and Level and the same Extra mapping. -/
theorem C9_build_is_order_independent (lib : Lib) (rng1 rng2 : RangeOrder) (p ct : String)
    (hpair : ∀ m, lib.unmarshal p = .ok (.obj m) → ∀ k ∈ JMap.keys m,
      gelfReservedField ("_" ++ k) = true → "_" ++ k ∉ JMap.keys m) :
    SameOutcome (buildGelfMessage lib rng1 p ct) (buildGelfMessage lib rng2 p ct) := by
  have hrefl : ∀ o : Outcome Message, SameOutcome o o := by
    intro o
    cases o with
    | ok a => exact ⟨rfl, rfl, rfl, rfl, rfl, fun _ => rfl⟩
    | error e => exact rfl
    | fault f => exact rfl
  by_cases hct : ct = "application/json" ∨ ct = "text/json"
  · by_cases hb : Braced p
    · rw [buildGelfMessage_of_braced lib rng1 p ct hct hb,
        buildGelfMessage_of_braced lib rng2 p ct hct hb]
      cases hu : lib.unmarshal p with
      | error e =>
        rw [buildGelfMessage_json_error rng1 hu, buildGelfMessage_json_error rng2 hu]
        exact rfl
      | ok v =>
        cases v with
        | obj m =>
          rw [buildGelfMessage_json_fields rng1 hu, buildGelfMessage_json_fields rng2 hu]
          cases extractFields lib m with
          | ok a =>
            exact ⟨rfl, rfl, rfl, rfl, rfl,
              lookup_renameReserved_order rng1 rng2 m (renameTarget_injOn (hpair m hu))⟩
          | error e => exact rfl
          | fault f => exact rfl
        | null => unfold buildGelfMessage_json; rw [hu]; exact rfl
        | bool b => unfold buildGelfMessage_json; rw [hu]; exact rfl
        | num f => unfold buildGelfMessage_json; rw [hu]; exact rfl
        | str t => unfold buildGelfMessage_json; rw [hu]; exact rfl
        | arr xs => unfold buildGelfMessage_json; rw [hu]; exact rfl
    · by_cases he : p = ""
      · subst he
        rw [buildGelfMessage_of_empty lib rng1 ct hct, buildGelfMessage_of_empty lib rng2 ct hct]
        exact rfl
      · rw [buildGelfMessage_of_not_braced lib rng1 p ct he hb,
          buildGelfMessage_of_not_braced lib rng2 p ct he hb]
        exact hrefl _
  · rw [buildGelfMessage_of_other_type lib rng1 p ct hct,
      buildGelfMessage_of_other_type lib rng2 p ct hct]
    exact hrefl _

/-- C9 (witness): two reserved keys and a host, visited in opposite orders. -/
theorem C9_build_is_order_independent_witness :
    SameOutcome
      (buildGelfMessage goLib rangeStored
        "\x7b\"_id\":\"a\",\"_ttl\":\"b\",\"host\":\"h\"\x7d" "application/json")
      (buildGelfMessage goLib rangeReversed
        "\x7b\"_id\":\"a\",\"_ttl\":\"b\",\"host\":\"h\"\x7d" "application/json") :=
  C9_build_is_order_independent goLib rangeStored rangeReversed
    "\x7b\"_id\":\"a\",\"_ttl\":\"b\",\"host\":\"h\"\x7d" "application/json"
    (by
      intro m hm
      have hdec : goLib.unmarshal "\x7b\"_id\":\"a\",\"_ttl\":\"b\",\"host\":\"h\"\x7d" =
          .ok (.obj [("host", .str "h"), ("_ttl", .str "b"), ("_id", .str "a")]) := by
        decide!
      rw [hdec] at hm
      cases hm
      decide!)

/-- C10 (counterexample): a "timestamp" that is neither a number nor a string
does not make the build fail: the record is returned, with TimeUnix at its
default 0. -/
theorem C10_counterexample :
    goLib.unmarshal "\x7b\"timestamp\":true\x7d" = .ok (.obj [("timestamp", .bool true)]) ∧
    buildGelfMessage_json goLib rangeStored "\x7b\"timestamp\":true\x7d" =
      .ok { Version := "1.1", Host := "unknown_amqp", Short := "",
            TimeUnix := Float64.zero, Level := 6,
            Extra := [("timestamp", .bool true)] } := by
  decide!

/-- C10 (amended): for a payload that decodes to an object in which
"timestamp" is present with a value that is neither a number nor a string,
`buildGelfMessage_json` falls back to the default of the field: every record
it returns has TimeUnix 0, and it returns a record whenever "host",
"short_message" and "version" are strings or absent and there is no "level"
key. -/
theorem C10_timestamp_falls_back (lib : Lib) (rng : RangeOrder) (message : String)
    (m : JMap) (v : JVal)
    (hdec : lib.unmarshal message = .ok (.obj m))
    (hts : JMap.lookup "timestamp" m = some v)
    (hnum : ∀ f, v ≠ .num f) (hstr : ∀ s, v ≠ .str s) :
    (∀ gm, buildGelfMessage_json lib rng message = .ok gm → gm.TimeUnix = Float64.zero) ∧
    (StringIfPresent "host" m → StringIfPresent "short_message" m →
      JMap.lookup "level" m = none → StringIfPresent "version" m →
      ∃ gm, buildGelfMessage_json lib rng message = .ok gm ∧ gm.TimeUnix = Float64.zero ∧
        gm.Level = 6) := by
  have hzero : timestampField lib m = Float64.zero := by
    unfold timestampField
    rw [hts]
    cases v with
    | num f => exact absurd rfl (hnum f)
    | str t => exact absurd rfl (hstr t)
    | null => rfl
    | bool b => rfl
    | arr xs => rfl
    | obj kvs => rfl
  rw [buildGelfMessage_json_fields rng hdec]
  constructor
  · intro gm h
    cases h0 : extractFields lib m with
    | error e => rw [h0] at h; cases h
    | fault f => rw [h0] at h; cases h
    | ok gm0 =>
      rw [h0] at h
      simp only [Outcome.bind, Outcome.ok.injEq] at h
      rw [← h]
      show gm0.TimeUnix = Float64.zero
      rw [extractFields_timeUnix h0, hzero]
  · intro hhost hshort hlevel hversion
    unfold extractFields
    rw [stringField_of_typed "unknown_amqp" hhost, stringField_of_typed "" hshort,
      stringField_of_typed "1.1" hversion, levelField_of_absent hlevel]
    exact ⟨_, rfl, hzero, rfl⟩

/-- C10 (witness): a boolean "timestamp" next to a host. -/
theorem C10_timestamp_falls_back_witness :
    ∃ gm, buildGelfMessage_json goLib rangeStored
        "\x7b\"host\":\"web1\",\"timestamp\":true\x7d" = .ok gm ∧
      gm.TimeUnix = Float64.zero ∧ gm.Level = 6 :=
  (C10_timestamp_falls_back goLib rangeStored "\x7b\"host\":\"web1\",\"timestamp\":true\x7d"
    [("timestamp", .bool true), ("host", .str "web1")] (.bool true)
    (by decide!) (by decide!) (by intro f h; cases h) (by intro s h; cases h)).2
    (by decide!) (by decide!) (by decide!) (by decide!)

end Amqp2Gelf
